import Mathlib

/-!
Oar: project orchestration service

A shallow embedding of `services/project.go` and `services/repository.go`,
together with theorems relating the embedded code to the written
specification of the service.

Strings are Lean strings, Go `error` values are the inductive `GoError`, and a
Go function returning `(T, error)` becomes a function returning a pair or an
`Except`.
-/

namespace Oar

/-! ## Errors -/

/-- Go `error` values, kept structurally: a plain error carrying its text, or
the result of `fmt.Errorf(pre ++ "%w", inner)`. -/
inductive GoError where
  | new (msg : String)
  | wrap (pre : String) (inner : GoError)
  deriving DecidableEq, Repr

/-- The text returned by the `Error()` method. -/
def GoError.Error : GoError → String
  | .new msg => msg
  | .wrap pre inner => pre ++ inner.Error

/-! ## Project status (`services/project.go`, lines 13-50) -/

/-- `type ProjectStatus int`. -/
abbrev ProjectStatus := Int

def ProjectStatusRunning : ProjectStatus := 0
def ProjectStatusStopped : ProjectStatus := 1
def ProjectStatusError : ProjectStatus := 2
def ProjectStatusUnknown : ProjectStatus := 3

/-- `func (s ProjectStatus) String() string`. -/
def ProjectStatus.String (s : ProjectStatus) : String :=
  if s = ProjectStatusRunning then "running"
  else if s = ProjectStatusStopped then "stopped"
  else if s = ProjectStatusError then "error"
  else if s = ProjectStatusUnknown then "unknown"
  else "unknown"

/-- `func ParseProjectStatus(s string) (ProjectStatus, error)`.  The error text
of the default case is `fmt.Errorf("invalid project status: %q", s)`; the
quoting of `%q` is rendered with `String.quote`. -/
def ParseProjectStatus (s : String) : ProjectStatus × Option GoError :=
  if s = "running" then (ProjectStatusRunning, none)
  else if s = "stopped" then (ProjectStatusStopped, none)
  else if s = "error" then (ProjectStatusError, none)
  else if s = "unknown" then (ProjectStatusUnknown, none)
  else (ProjectStatusUnknown, some (GoError.new ("invalid project status: " ++ s.quote)))

/-! ## File-list encoding (`services/repository.go`, lines 145-155) -/

/-- The separator `"\x00"`. -/
def nul : Char := Char.ofNat 0

/-- `strings.Split(s, "\x00")` on the characters of `s`: the pieces between
consecutive separators, always at least one piece. -/
def splitNul : List Char → List (List Char)
  | [] => [[]]
  | c :: cs =>
    if c = nul then [] :: splitNul cs
    else
      match splitNul cs with
      | [] => [[c]]
      | piece :: rest => (c :: piece) :: rest

/-- `strings.Join(elems, "\x00")` on character lists. -/
def joinNul : List (List Char) → List Char
  | [] => []
  | [x] => x
  | x :: y :: rest => x ++ nul :: joinNul (y :: rest)

/-- `func parseFiles(s string) []string`. -/
def parseFiles (s : String) : List String :=
  if s = "" then []
  else (splitNul s.data).map String.mk

/-- `func serializeFiles(files []string) string`. -/
def serializeFiles (files : List String) : String :=
  String.mk (joinNul (files.map String.data))

/-! ## Domain records

The Go declarations of `Project`, `Deployment`, `Config`, `ComposeProject` and
of the `GitExecutor` interface are not in `services/project.go`; the records
below carry the fields that the service code reads and writes. -/

/-- `uuid.UUID`, identified with the canonical text returned by its `String`
method. -/
structure UUID where
  text : String
  deriving DecidableEq, Repr

/-- `func (uuid UUID) String() string`. -/
def UUID.String (id : UUID) : String := id.text

/-- Modelled from the spec: the `Project` entity (section 3 of the
specification); `LastCommit` is the Go `*string`, `none` being the nil
pointer. -/
structure Project where
  ID : UUID
  Name : String
  GitURL : String
  WorkingDir : String
  ComposeFiles : List String
  EnvironmentFiles : List String
  Status : ProjectStatus
  LastCommit : Option String
  deriving DecidableEq, Repr

/-- Modelled from the spec: deployment status is the three-valued enumeration
InProgress, Success, Failed. -/
inductive DeploymentStatus where
  | InProgress
  | Success
  | Failed
  deriving DecidableEq, Repr

/-- Modelled from the spec: the constant `DeploymentStatusCompleted` that
`DeployStreaming` assigns is the Success value ("mark the Deployment
Success"). -/
def DeploymentStatusCompleted : DeploymentStatus := DeploymentStatus.Success

/-- Modelled from the spec: the `Deployment` entity (section 3 of the
specification). -/
structure Deployment where
  ID : UUID
  ProjectID : UUID
  CommitHash : String
  CommandLine : String
  Status : DeploymentStatus
  Output : String
  deriving DecidableEq, Repr

/-! ## The world outside the service

The service owns no storage.  Everything it touches is gathered in `World`:
the two persisted tables, the directories that exist on disk, and the ordered
record of every call the service makes to a collaborator, including what it
sends on an output channel. -/

/-- One call issued by the service to a collaborator. -/
inductive Event where
  | FindByID (id : UUID)
  | ProjectCreate (project : Project)
  | ProjectUpdate (project : Project)
  | ProjectDelete (id : UUID)
  | DeploymentCreate (deployment : Deployment)
  | Stat (path : String)
  | MkdirAll (path : String)
  | Rename (oldpath newpath : String)
  | RemoveAll (path : String)
  | Clone (gitURL workingDir : String)
  | Pull (workingDir : String)
  | GetLatestCommit (workingDir : String)
  | Up (project : Project)
  | UpStreaming (project : Project)
  | Down (project : Project)
  | DownStreaming (project : Project)
  | LogsStreaming (project : Project)
  | Send (msg : String)
  | Close
  deriving DecidableEq, Repr

structure World where
  projects : List Project
  deployments : List Deployment
  dirs : List String
  log : List Event
  deriving DecidableEq, Repr

/-- Append a call to the record. -/
def World.emit (w : World) (e : Event) : World :=
  { w with log := w.log ++ [e] }

/-- `outputChan <- msg`. -/
def World.send (w : World) (msg : String) : World := w.emit (Event.Send msg)

/-- Several sends in a row, as a streaming compose command produces them. -/
def World.sendAll (w : World) (msgs : List String) : World :=
  { w with log := w.log ++ msgs.map Event.Send }

/-- `close(outputChan)`. -/
def World.close (w : World) : World := w.emit Event.Close

/-- `type GitExecutor interface`: the answers of the git collaborator, which
may depend on everything that happened before the call. -/
structure GitExecutor where
  Clone : World → String → String → Option GoError
  Pull : World → String → Option GoError
  GetLatestCommit : World → String → String × Option GoError

/-- The methods of `ComposeProject`: each answers with its output (or the
lines it writes to the output channel) and an error. -/
structure ComposeExecutor where
  Up : World → Project → String × Option GoError
  UpStreaming : World → Project → List String × Option GoError
  Down : World → Project → String × Option GoError
  DownStreaming : World → Project → List String × Option GoError
  LogsStreaming : World → Project → List String × Option GoError

structure Config where
  WorkspaceDir : String

/-- `type ProjectService struct`, with its collaborators made explicit.
`fault` tells, for a storage or filesystem call made in a given world, whether
the call fails for a reason of its own (and with which error); `GitDir` is the
method `Project.GitDir`; `filepathJoin`, `filepathDir` are the path functions
of the standard library and `within root path` holds when `path` lies strictly
below `root`. -/
structure ProjectService where
  gitService : GitExecutor
  compose : ComposeExecutor
  config : Config
  fault : World → Event → Option GoError
  GitDir : Project → String × Option GoError
  filepathJoin : String → String → String
  filepathDir : String → String
  within : String → String → Bool
  newUUID : World → UUID

/-- `gorm.ErrRecordNotFound`. -/
def ErrRecordNotFound : GoError := GoError.new "record not found"

/-- The error of a violated primary-key or uniqueness constraint. -/
def ErrConstraint : GoError := GoError.new "constraint failed"

/-- `os.ErrNotExist`. -/
def ErrNotExist : GoError := GoError.new "file does not exist"

/-- `os.IsNotExist(err)`; false on the nil error. -/
def IsNotExist : Option GoError → Bool
  | none => false
  | some err => decide (err = ErrNotExist)

/-! ## Filesystem calls -/

/-- Whether something exists at `path`: the path itself or anything below. -/
def pathExists (s : ProjectService) (w : World) (path : String) : Bool :=
  w.dirs.any (fun d => decide (d = path) || s.within path d)

/-- `os.Stat(path)`, error part. -/
def osStat (s : ProjectService) (path : String) (w : World) : Option GoError × World :=
  let w1 := w.emit (Event.Stat path)
  match s.fault w (Event.Stat path) with
  | some err => (some err, w1)
  | none => if pathExists s w path then (none, w1) else (some ErrNotExist, w1)

/-- `os.MkdirAll(path, 0o755)`. -/
def osMkdirAll (s : ProjectService) (path : String) (w : World) : Option GoError × World :=
  let w1 := w.emit (Event.MkdirAll path)
  match s.fault w (Event.MkdirAll path) with
  | some err => (some err, w1)
  | none => (none, { w1 with dirs := if path ∈ w1.dirs then w1.dirs else w1.dirs ++ [path] })

/-- `os.Rename(oldpath, newpath)`: what was at or below `oldpath` is gone from
there and `newpath` exists. -/
def osRename (s : ProjectService) (oldpath newpath : String) (w : World) :
    Option GoError × World :=
  let w1 := w.emit (Event.Rename oldpath newpath)
  match s.fault w (Event.Rename oldpath newpath) with
  | some err => (some err, w1)
  | none =>
    if pathExists s w oldpath then
      (none, { w1 with
        dirs := (w1.dirs.filter (fun d => !(decide (d = oldpath) || s.within oldpath d)))
                  ++ [newpath] })
    else (some ErrNotExist, w1)

/-- `os.RemoveAll(path)`: removes `path` and everything below it; a missing
path is not an error. -/
def osRemoveAll (s : ProjectService) (path : String) (w : World) : Option GoError × World :=
  let w1 := w.emit (Event.RemoveAll path)
  match s.fault w (Event.RemoveAll path) with
  | some err => (some err, w1)
  | none =>
    (none, { w1 with dirs := w1.dirs.filter (fun d => !(decide (d = path) || s.within path d)) })

/-! ## Repositories (`services/repository.go`)

The tables hold the records in domain form: the mappers between domain
records and database rows are not among the sources. -/

/-- `func (r *projectRepository) FindByID(id uuid.UUID) (*Project, error)`. -/
def projectRepository.FindByID (s : ProjectService) (id : UUID) (w : World) :
    Except GoError Project × World :=
  let w1 := w.emit (Event.FindByID id)
  match s.fault w (Event.FindByID id) with
  | some err => (Except.error err, w1)
  | none =>
    match w.projects.find? (fun p => decide (p.ID = id)) with
    | none => (Except.error ErrRecordNotFound, w1)
    | some project => (Except.ok project, w1)

/-- `func (r *projectRepository) Create(project *Project) (*Project, error)`;
the primary key `ID` and the column `Name` are unique. -/
def projectRepository.Create (s : ProjectService) (project : Project) (w : World) :
    Except GoError Project × World :=
  let w1 := w.emit (Event.ProjectCreate project)
  match s.fault w (Event.ProjectCreate project) with
  | some err => (Except.error err, w1)
  | none =>
    if w.projects.any (fun p => decide (p.ID = project.ID) || decide (p.Name = project.Name))
    then (Except.error ErrConstraint, w1)
    else (Except.ok project, { w1 with projects := w1.projects ++ [project] })

/-- `func (r *projectRepository) Update(project *Project) error`: the row with
the primary key of `project` takes the values of `project`; no matching row is
not an error. -/
def projectRepository.Update (s : ProjectService) (project : Project) (w : World) :
    Option GoError × World :=
  let w1 := w.emit (Event.ProjectUpdate project)
  match s.fault w (Event.ProjectUpdate project) with
  | some err => (some err, w1)
  | none =>
    (none, { w1 with
      projects := w1.projects.map (fun p => if p.ID = project.ID then project else p) })

/-- `func (r *projectRepository) Delete(id uuid.UUID) error`; the deployments
of the project are deleted with it (`OnDelete:CASCADE`). -/
def projectRepository.Delete (s : ProjectService) (id : UUID) (w : World) :
    Option GoError × World :=
  let w1 := w.emit (Event.ProjectDelete id)
  match s.fault w (Event.ProjectDelete id) with
  | some err => (some err, w1)
  | none =>
    (none, { w1 with
      projects := w1.projects.filter (fun p => !decide (p.ID = id))
      deployments := w1.deployments.filter (fun d => !decide (d.ProjectID = id)) })

/-- `func (r *deploymentRepository) Create(deployment *Deployment) error`; the
foreign key `ProjectID` must name an existing project. -/
def deploymentRepository.Create (s : ProjectService) (deployment : Deployment) (w : World) :
    Option GoError × World :=
  let w1 := w.emit (Event.DeploymentCreate deployment)
  match s.fault w (Event.DeploymentCreate deployment) with
  | some err => (some err, w1)
  | none =>
    if w.projects.any (fun p => decide (p.ID = deployment.ProjectID))
    then (none, { w1 with deployments := w1.deployments ++ [deployment] })
    else (some ErrConstraint, w1)

/-! ## Git and compose calls -/

/-- `s.gitService.Clone(gitURL, workingDir)`: a successful clone leaves the
checkout directory on disk. -/
def gitClone (s : ProjectService) (gitURL workingDir : String) (w : World) :
    Option GoError × World :=
  let w1 := w.emit (Event.Clone gitURL workingDir)
  match s.gitService.Clone w gitURL workingDir with
  | some err => (some err, w1)
  | none =>
    (none, { w1 with dirs := if workingDir ∈ w1.dirs then w1.dirs else w1.dirs ++ [workingDir] })

/-- `s.gitService.Pull(workingDir)`. -/
def gitPull (s : ProjectService) (workingDir : String) (w : World) : Option GoError × World :=
  (s.gitService.Pull w workingDir, w.emit (Event.Pull workingDir))

/-- `s.gitService.GetLatestCommit(workingDir)`. -/
def gitGetLatestCommit (s : ProjectService) (workingDir : String) (w : World) :
    (String × Option GoError) × World :=
  (s.gitService.GetLatestCommit w workingDir, w.emit (Event.GetLatestCommit workingDir))

/-- The compose executor built for one project. -/
abbrev ComposeProject := Project

/-- `NewComposeProject(project)`. -/
def NewComposeProject (project : Project) : ComposeProject := project

/-- `composeProject.Up()`. -/
def ComposeProject.Up (c : ComposeProject) (s : ProjectService) (w : World) :
    (String × Option GoError) × World :=
  (s.compose.Up w c, w.emit (Event.Up c))

/-- `composeProject.Down()`. -/
def ComposeProject.Down (c : ComposeProject) (s : ProjectService) (w : World) :
    (String × Option GoError) × World :=
  (s.compose.Down w c, w.emit (Event.Down c))

/-- `composeProject.UpStreaming(outputChan)`: the command's own output lines go
to the channel. -/
def ComposeProject.UpStreaming (c : ComposeProject) (s : ProjectService) (w : World) :
    Option GoError × World :=
  ((s.compose.UpStreaming w c).2, (w.emit (Event.UpStreaming c)).sendAll (s.compose.UpStreaming w c).1)

/-- `composeProject.DownStreaming(outputChan)`. -/
def ComposeProject.DownStreaming (c : ComposeProject) (s : ProjectService) (w : World) :
    Option GoError × World :=
  ((s.compose.DownStreaming w c).2,
    (w.emit (Event.DownStreaming c)).sendAll (s.compose.DownStreaming w c).1)

/-- `composeProject.LogsStreaming(outputChan)`. -/
def ComposeProject.LogsStreaming (c : ComposeProject) (s : ProjectService) (w : World) :
    Option GoError × World :=
  ((s.compose.LogsStreaming w c).2,
    (w.emit (Event.LogsStreaming c)).sendAll (s.compose.LogsStreaming w c).1)

/-- Modelled from the spec: `NewDeployment(projectID, commitHash)` builds, in
memory, a Deployment for that project and commit with status InProgress; its
identity is a freshly drawn UUID. -/
def NewDeployment (s : ProjectService) (w : World) (projectID : UUID) (commitHash : String) :
    Deployment :=
  { ID := s.newUUID w, ProjectID := projectID, CommitHash := commitHash, CommandLine := "",
    Status := DeploymentStatus.InProgress, Output := "" }

/-! ## The service (`services/project.go`, lines 76-572) -/

namespace ProjectService

/-- `func (s *ProjectService) Get(id uuid.UUID) (*Project, error)`. -/
def Get (s : ProjectService) (id : UUID) (w : World) : Except GoError Project × World :=
  match projectRepository.FindByID s id w with
  | (Except.error err, w1) => (Except.error err, w1)
  | (Except.ok project, w1) => (Except.ok project, w1)

/-- Lines 126-185 of `CreateFromTempClone`: move the temp clone to its
permanent location if one is given, clone the repository otherwise.  An error
here is an early return of `CreateFromTempClone`. -/
def CreateFromTempClone.setup (s : ProjectService) (project : Project) (gitDir : String)
    (tempClonePath : String) (w : World) : Option GoError × World :=
  if tempClonePath ≠ "" then
    match osStat s tempClonePath w with
    | (statErr, wa) =>
      if IsNotExist statErr then (statErr, wa)
      else
        match osMkdirAll s (s.filepathDir gitDir) wa with
        | (some err, wb) => (some err, wb)
        | (none, wb) =>
          match osRename s tempClonePath gitDir wb with
          | (some err, wc) => (some err, (osRemoveAll s tempClonePath wc).2)
          | (none, wc) => (none, wc)
  else
    match gitClone s project.GitURL gitDir w with
    | (some err, wa) => (some err, wa)
    | (none, wa) => (none, wa)

/-- `func (s *ProjectService) CreateFromTempClone(project *Project,
tempClonePath string) (*Project, error)`. -/
def CreateFromTempClone (s : ProjectService) (project : Project) (tempClonePath : String)
    (w : World) : Except GoError Project × World :=
  let project : Project :=
    { project with WorkingDir := s.filepathJoin s.config.WorkspaceDir project.ID.String }
  match s.GitDir project with
  | (_, some err) => (Except.error err, w)
  | (gitDir, none) =>
    match CreateFromTempClone.setup s project gitDir tempClonePath w with
    | (some err, w1) => (Except.error err, w1)
    | (none, w1) =>
      match gitGetLatestCommit s gitDir w1 with
      | ((commit, _), w2) =>
        let project : Project := { project with LastCommit := some commit }
        let workingDir := project.WorkingDir
        match projectRepository.Create s project w2 with
        | (Except.error err, w3) => (Except.error err, (osRemoveAll s workingDir w3).2)
        | (Except.ok createdProject, w3) => (Except.ok createdProject, w3)

/-- `func (s *ProjectService) Create(project *Project) (*Project, error)`. -/
def Create (s : ProjectService) (project : Project) (w : World) :
    Except GoError Project × World :=
  s.CreateFromTempClone project "" w

/-- `func (s *ProjectService) Update(project *Project) error`. -/
def Update (s : ProjectService) (project : Project) (w : World) : Option GoError × World :=
  projectRepository.Update s project w

/-- `func (s *ProjectService) pullLatestChanges(project *Project) error`. -/
def pullLatestChanges (s : ProjectService) (project : Project) (w : World) :
    Option GoError × World :=
  match s.GitDir project with
  | (_, some err) => (some (GoError.wrap "failed to get git directory: " err), w)
  | (gitDir, none) =>
    match gitPull s gitDir w with
    | (some err, w1) => (some (GoError.wrap "failed to pull changes: " err), w1)
    | (none, w1) => (none, w1)

/-- The body of `DeployStreaming`, before the deferred `close(outputChan)`. -/
def DeployStreaming.body (s : ProjectService) (projectID : UUID) (pull : Bool) (w : World) :
    Option GoError × World :=
  match s.Get projectID w with
  | (Except.error err, w1) => (some (GoError.wrap "project not found: " err), w1)
  | (Except.ok project, w1) =>
    match s.GitDir project with
    | (_, some err) => (some (GoError.wrap "failed to get git directory: " err), w1)
    | (gitDir, none) =>
      -- pull latest changes if requested; `some err` is an early return
      let pulled : Option GoError × World :=
        if pull then
          match s.pullLatestChanges project
              (w1.send "OAR_MSG:default:Pulling latest changes from Git...") with
          | (some err, wb) =>
            (some err, wb.send ("OAR_MSG:error:Failed to pull latest changes: " ++ err.Error))
          | (none, wb) => (none, wb.send "OAR_MSG:success:Git pull completed successfully")
        else (none, w1)
      match pulled with
      | (some err, w2) => (some err, w2)
      | (none, w2) =>
        match gitGetLatestCommit s gitDir w2 with
        | ((_, some err), w3) => (some err, w3)
        | ((commitHash, none), w3) =>
          let deployment := NewDeployment s w3 projectID commitHash
          let composeProject := NewComposeProject project
          match composeProject.UpStreaming s
              (w3.send "OAR_MSG:default:Starting Docker Compose deployment...") with
          | (some err, w5) => (some (GoError.wrap "failed to start project: " err), w5)
          | (none, w5) =>
            let w6 := w5.send "OAR_MSG:success:Docker Compose deployment completed successfully"
            let deployment : Deployment := { deployment with Status := DeploymentStatusCompleted }
            let project : Project :=
              { project with Status := ProjectStatusRunning, LastCommit := some commitHash }
            match deploymentRepository.Create s deployment w6 with
            | (some err, w7) =>
              (some (GoError.wrap "failed to update deployment record: " err), w7)
            | (none, w7) =>
              match projectRepository.Update s project w7 with
              | (some err, w8) =>
                (some (GoError.wrap "failed to update project status: " err), w8)
              | (none, w8) => (none, w8)

/-- `func (s *ProjectService) DeployStreaming(projectID uuid.UUID, pull bool,
outputChan chan<- string) error`; the channel is closed on return. -/
def DeployStreaming (s : ProjectService) (projectID : UUID) (pull : Bool) (w : World) :
    Option GoError × World :=
  ((DeployStreaming.body s projectID pull w).1, (DeployStreaming.body s projectID pull w).2.close)

/-- `func (s *ProjectService) Start(projectID uuid.UUID) error`. -/
def Start (s : ProjectService) (projectID : UUID) (w : World) : Option GoError × World :=
  match s.Get projectID w with
  | (Except.error err, w1) => (some (GoError.wrap "project not found: " err), w1)
  | (Except.ok project, w1) =>
    let composeProject := NewComposeProject project
    match composeProject.Up s w1 with
    | ((_, some err), w2) => (some (GoError.wrap "failed to start project: " err), w2)
    | ((_, none), w2) =>
      let project : Project := { project with Status := ProjectStatusRunning }
      s.Update project w2

/-- `func (s *ProjectService) StartStreaming(projectID uuid.UUID,
outputChan chan<- string) error`; there is no deferred close here. -/
def StartStreaming (s : ProjectService) (projectID : UUID) (w : World) :
    Option GoError × World :=
  match s.Get projectID w with
  | (Except.error err, w1) => (some (GoError.wrap "project not found: " err), w1)
  | (Except.ok project, w1) =>
    let composeProject := NewComposeProject project
    match composeProject.UpStreaming s w1 with
    | (some err, w2) => (some (GoError.wrap "failed to start project: " err), w2)
    | (none, w2) =>
      let project : Project := { project with Status := ProjectStatusRunning }
      s.Update project w2

/-- `func (s *ProjectService) Stop(projectID uuid.UUID) error`. -/
def Stop (s : ProjectService) (projectID : UUID) (w : World) : Option GoError × World :=
  match s.Get projectID w with
  | (Except.error err, w1) => (some (GoError.wrap "project not found: " err), w1)
  | (Except.ok project, w1) =>
    let composeProject := NewComposeProject project
    match composeProject.Down s w1 with
    | ((_, some err), w2) => (some (GoError.wrap "failed to stop project: " err), w2)
    | ((_, none), w2) =>
      let project : Project := { project with Status := ProjectStatusStopped }
      s.Update project w2

/-- The body of `StopStreaming`, before the deferred `close(outputChan)`. -/
def StopStreaming.body (s : ProjectService) (projectID : UUID) (w : World) :
    Option GoError × World :=
  match s.Get projectID w with
  | (Except.error err, w1) => (some (GoError.wrap "project not found: " err), w1)
  | (Except.ok project, w1) =>
    let composeProject := NewComposeProject project
    match composeProject.DownStreaming s
        (w1.send "OAR_MSG:default:Starting Docker Compose shutdown...") with
    | (some err, w2) => (some (GoError.wrap "failed to stop project: " err), w2)
    | (none, w2) =>
      let w3 := w2.send "OAR_MSG:success:Docker Compose shutdown completed successfully"
      let project : Project := { project with Status := ProjectStatusStopped }
      s.Update project w3

/-- `func (s *ProjectService) StopStreaming(projectID uuid.UUID,
outputChan chan<- string) error`; the channel is closed on return. -/
def StopStreaming (s : ProjectService) (projectID : UUID) (w : World) :
    Option GoError × World :=
  ((StopStreaming.body s projectID w).1, (StopStreaming.body s projectID w).2.close)

/-- `func (s *ProjectService) Remove(projectID uuid.UUID) error`. -/
def Remove (s : ProjectService) (projectID : UUID) (w : World) : Option GoError × World :=
  match s.Get projectID w with
  | (Except.error err, w1) => (some (GoError.wrap "project not found: " err), w1)
  | (Except.ok project, w1) =>
    match s.Stop projectID w1 with
    | (some err, w2) => (some (GoError.wrap "failed to stop project before removal: " err), w2)
    | (none, w2) =>
      match osRemoveAll s project.WorkingDir w2 with
      | (some err, w3) => (some (GoError.wrap "failed to remove project directory: " err), w3)
      | (none, w3) =>
        match projectRepository.Delete s projectID w3 with
        | (some err, w4) =>
          (some (GoError.wrap "failed to delete project from database: " err), w4)
        | (none, w4) => (none, w4)

/-- The body of `GetLogsStreaming`, before the deferred `close(outputChan)`. -/
def GetLogsStreaming.body (s : ProjectService) (projectID : UUID) (w : World) :
    Option GoError × World :=
  match s.Get projectID w with
  | (Except.error err, w1) => (some (GoError.wrap "project not found: " err), w1)
  | (Except.ok project, w1) =>
    let composeProject := NewComposeProject project
    match composeProject.LogsStreaming s w1 with
    | (some err, w2) => (some (GoError.wrap "failed to stream logs: " err), w2)
    | (none, w2) => (none, w2)

/-- `func (s *ProjectService) GetLogsStreaming(projectID uuid.UUID,
outputChan chan<- string) error`; the channel is closed on return. -/
def GetLogsStreaming (s : ProjectService) (projectID : UUID) (w : World) :
    Option GoError × World :=
  ((GetLogsStreaming.body s projectID w).1, (GetLogsStreaming.body s projectID w).2.close)

end ProjectService

/-! ## Observations on a world -/

/-- The persisted record of a project, if any. -/
def World.project (w : World) (id : UUID) : Option Project :=
  w.projects.find? (fun p => decide (p.ID = id))

/-- The persisted status of a project, if it has a record. -/
def World.status (w : World) (id : UUID) : Option ProjectStatus :=
  (w.project id).map Project.Status

/-- Calls that write to a persisted table. -/
def Event.isWrite : Event → Bool
  | Event.ProjectCreate _ => true
  | Event.ProjectUpdate _ => true
  | Event.ProjectDelete _ => true
  | Event.DeploymentCreate _ => true
  | _ => false

/-- Calls that delete something: a directory tree or a project record. -/
def Event.isRemoval : Event → Bool
  | Event.RemoveAll _ => true
  | Event.ProjectDelete _ => true
  | _ => false

/-- Calls that neither write to a persisted table nor close the channel. -/
def Event.isQuiet : Event → Bool
  | Event.Close => false
  | e => !e.isWrite

/-- The record of `w1` is the record of `w` followed by calls that all
satisfy `P`. -/
def Grows (P : Event → Prop) (w w1 : World) : Prop :=
  ∃ evs, w1.log = w.log ++ evs ∧ ∀ e ∈ evs, P e

/-! ## Streaming message encoding -/

/-- The severity levels of a progress message. -/
def levels : List String := ["default", "success", "error"]

/-- The characters before the first colon and the characters after it; `none`
when there is no colon. -/
def cutColon : List Char → Option (List Char × List Char)
  | [] => none
  | c :: cs =>
    if c = ':' then some ([], cs)
    else
      match cutColon cs with
      | none => none
      | some (before, after) => some (c :: before, after)

/-- Modelled from the spec: a consumer splits a message on its first two
colons only, into prefix, level and text; the text keeps any further colon. -/
def splitTwoColons (msg : String) : Option (String × String × String) :=
  match cutColon msg.data with
  | none => none
  | some (tag, rest) =>
    match cutColon rest with
    | none => none
    | some (level, text) => some (String.mk tag, String.mk level, String.mk text)

/-- A message of the form `OAR_MSG:LEVEL:TEXT` whose split on the first two
colons gives back the tag `OAR_MSG` and a level among the three. -/
def OarMessage (msg : String) : Prop :=
  ∃ level text, level ∈ levels ∧ msg = "OAR_MSG:" ++ level ++ ":" ++ text ∧
    splitTwoColons msg = some ("OAR_MSG", level, text)

/-- A line that the compose executor of `s` writes to the output channel in
some streaming up or down command. -/
def ComposeLine (s : ProjectService) (msg : String) : Prop :=
  ∃ w p, msg ∈ (s.compose.UpStreaming w p).1 ∨ msg ∈ (s.compose.DownStreaming w p).1

/-- Every send is a message of the orchestrator in the `OAR_MSG` form or a
line forwarded from the compose executor. -/
def OwnOrForwarded (s : ProjectService) (e : Event) : Prop :=
  ∀ m, e = Event.Send m → OarMessage m ∨ ComposeLine s m

/-! ## Sample collaborators used to exercise the definitions -/

def sampleGit : GitExecutor :=
  { Clone := fun _ _ _ => none
    Pull := fun _ _ => none
    GetLatestCommit := fun _ _ => ("c0ffee", none) }

def sampleCompose : ComposeExecutor :=
  { Up := fun _ _ => ("started", none)
    UpStreaming := fun _ _ => (["Container web  Started"], none)
    Down := fun _ _ => ("stopped", none)
    DownStreaming := fun _ _ => (["Container web  Removed"], none)
    LogsStreaming := fun _ _ => (["web  | ready"], none) }

/-- A service whose collaborators all succeed. -/
def sampleService : ProjectService :=
  { gitService := sampleGit
    compose := sampleCompose
    config := { WorkspaceDir := "/ws" }
    fault := fun _ _ => none
    GitDir := fun p => (p.WorkingDir ++ "/git", none)
    filepathJoin := fun a b => a ++ "/" ++ b
    filepathDir := fun _ => "/ws/p1"
    within := fun root path => decide (path = root ++ "/git")
    newUUID := fun _ => { text := "d1" } }

def sampleID : UUID := { text := "p1" }

def sampleProject : Project :=
  { ID := sampleID, Name := "web", GitURL := "https://example.org/web.git",
    WorkingDir := "/ws/p1", ComposeFiles := ["compose.yaml"], EnvironmentFiles := [],
    Status := ProjectStatusStopped, LastCommit := none }

/-- One stopped project with its checkout on disk. -/
def sampleWorld : World :=
  { projects := [sampleProject], deployments := [], dirs := ["/ws/p1/git"], log := [] }

/-- Nothing persisted, nothing on disk. -/
def emptyWorld : World :=
  { projects := [], deployments := [], dirs := [], log := [] }

def boom : GoError := GoError.new "boom"

/-- The compose executor fails on every command. -/
def failingCompose : ComposeExecutor :=
  { Up := fun _ _ => ("", some boom)
    UpStreaming := fun _ _ => ([], some boom)
    Down := fun _ _ => ("", some boom)
    DownStreaming := fun _ _ => ([], some boom)
    LogsStreaming := fun _ _ => ([], some boom) }

def composeFailService : ProjectService := { sampleService with compose := failingCompose }

/-- Only the project repository's update fails. -/
def updateFailService : ProjectService :=
  { sampleService with
    fault := fun _ e => match e with
      | Event.ProjectUpdate _ => some boom
      | _ => none }

/-- Only the project repository's create fails. -/
def createFailService : ProjectService :=
  { sampleService with
    fault := fun _ e => match e with
      | Event.ProjectCreate _ => some boom
      | _ => none }

/-- The project repository's create and the cleanup both fail. -/
def createCleanupFailService : ProjectService :=
  { sampleService with
    fault := fun _ e => match e with
      | Event.ProjectCreate _ => some boom
      | Event.RemoveAll _ => some (GoError.new "permission denied")
      | _ => none }

/-- Reading the latest commit fails the way `GitService.GetLatestCommit` does:
with the empty string and an error. -/
def commitFailService : ProjectService :=
  { sampleService with
    gitService := { sampleGit with GetLatestCommit := fun _ _ => ("", some boom) } }

/-- The git pull fails. -/
def pullFailService : ProjectService :=
  { sampleService with gitService := { sampleGit with Pull := fun _ _ => some boom } }

/-- A project about to be created. -/
def newProject : Project :=
  { ID := { text := "p2" }, Name := "api", GitURL := "https://example.org/api.git",
    WorkingDir := "", ComposeFiles := ["compose.yaml"], EnvironmentFiles := [],
    Status := ProjectStatusUnknown, LastCommit := none }

/-- The compose executor writes nothing to the output channel. -/
def silentCompose : ComposeExecutor :=
  { Up := fun _ _ => ("", none)
    UpStreaming := fun _ _ => ([], none)
    Down := fun _ _ => ("", none)
    DownStreaming := fun _ _ => ([], none)
    LogsStreaming := fun _ _ => ([], none) }

/-- The git pull fails and the compose executor is silent. -/
def silentPullFailService : ProjectService := { pullFailService with compose := silentCompose }

/-! ## Theorems -/
/-! ### Bookkeeping lemmas -/

@[simp] theorem World.emit_projects (w : World) (e : Event) : (w.emit e).projects = w.projects := rfl
@[simp] theorem World.emit_deployments (w : World) (e : Event) :
    (w.emit e).deployments = w.deployments := rfl
@[simp] theorem World.emit_dirs (w : World) (e : Event) : (w.emit e).dirs = w.dirs := rfl
@[simp] theorem World.emit_log (w : World) (e : Event) : (w.emit e).log = w.log ++ [e] := rfl
@[simp] theorem World.send_projects (w : World) (m : String) : (w.send m).projects = w.projects := rfl
@[simp] theorem World.send_deployments (w : World) (m : String) :
    (w.send m).deployments = w.deployments := rfl
@[simp] theorem World.send_dirs (w : World) (m : String) : (w.send m).dirs = w.dirs := rfl
@[simp] theorem World.send_log (w : World) (m : String) :
    (w.send m).log = w.log ++ [Event.Send m] := rfl
@[simp] theorem World.sendAll_projects (w : World) (ms : List String) :
    (w.sendAll ms).projects = w.projects := rfl
@[simp] theorem World.sendAll_deployments (w : World) (ms : List String) :
    (w.sendAll ms).deployments = w.deployments := rfl
@[simp] theorem World.sendAll_dirs (w : World) (ms : List String) : (w.sendAll ms).dirs = w.dirs := rfl
@[simp] theorem World.sendAll_log (w : World) (ms : List String) :
    (w.sendAll ms).log = w.log ++ ms.map Event.Send := rfl
@[simp] theorem World.close_projects (w : World) : w.close.projects = w.projects := rfl
@[simp] theorem World.close_deployments (w : World) : w.close.deployments = w.deployments := rfl
@[simp] theorem World.close_dirs (w : World) : w.close.dirs = w.dirs := rfl
@[simp] theorem World.close_log (w : World) : w.close.log = w.log ++ [Event.Close] := rfl

/-- What `Get` returns and leaves behind. -/
theorem Get_spec (s : ProjectService) (id : UUID) (w : World) :
    (s.Get id w).2 = w.emit (Event.FindByID id) ∧
      ∀ p, (s.Get id w).1 = Except.ok p → w.project id = some p ∧ p.ID = id := by
  unfold ProjectService.Get projectRepository.FindByID World.project
  cases hf : s.fault w (Event.FindByID id) with
  | some err => simp
  | none =>
    cases hp : w.projects.find? (fun p => decide (p.ID = id)) with
    | none => simp
    | some q =>
      have := List.find?_some hp
      simp_all

/-- Replacing the rows of a key by a row of the same key makes that row the
one found under the key. -/
theorem find_replace (ps : List Project) (q : Project) (id : UUID) (hq : q.ID = id)
    (h : (ps.find? (fun p => decide (p.ID = id))).isSome) :
    (ps.map (fun p => if p.ID = q.ID then q else p)).find? (fun p => decide (p.ID = id))
      = some q := by
  induction ps with
  | nil => simp at h
  | cons a rest ih =>
    by_cases ha : a.ID = id
    · simp [List.find?, ha, hq]
    · have hrest : (rest.find? (fun p => decide (p.ID = id))).isSome := by
        simpa [List.find?, ha] using h
      simp [List.find?, ha, hq]
      simpa [hq] using ih hrest


theorem splitNul_nulFree (x : List Char) (hx : nul ∉ x) : splitNul x = [x] := by
  induction x with
  | nil => rfl
  | cons c cs ih =>
    have hc : c ≠ nul := fun h => hx (by simp [h])
    have hcs : nul ∉ cs := fun h => hx (by simp [h])
    simp [splitNul, hc, ih hcs]

theorem splitNul_append (x : List Char) (hx : nul ∉ x) (rest : List Char) :
    splitNul (x ++ nul :: rest) = x :: splitNul rest := by
  induction x with
  | nil => simp [splitNul]
  | cons c cs ih =>
    have hc : c ≠ nul := fun h => hx (by simp [h])
    have hcs : nul ∉ cs := fun h => hx (by simp [h])
    simp [splitNul, hc, ih hcs]

theorem splitNul_joinNul (xs : List (List Char)) (hne : xs ≠ [])
    (hx : ∀ x ∈ xs, nul ∉ x) : splitNul (joinNul xs) = xs := by
  induction xs with
  | nil => exact absurd rfl hne
  | cons x rest ih =>
    cases rest with
    | nil => simpa [joinNul] using splitNul_nulFree x (hx x (by simp))
    | cons y rest =>
      have hrest : ∀ z ∈ y :: rest, nul ∉ z := fun z hz => hx z (by simp [hz])
      rw [joinNul, splitNul_append x (hx x (by simp)), ih (by simp) hrest]

theorem joinNul_eq_nil (xs : List (List Char)) (h : joinNul xs = []) :
    xs = [] ∨ xs = [[]] := by
  match xs with
  | [] => simp
  | [x] => simpa [joinNul] using h
  | x :: y :: rest => simp [joinNul] at h

theorem Grows.refl (P : Event → Prop) (w : World) : Grows P w w :=
  ⟨[], by simp, by simp⟩

theorem Grows.of_log {P : Event → Prop} {w w1 w2 : World} (h : Grows P w w1)
    (evs : List Event) (hlog : w2.log = w1.log ++ evs) (hP : ∀ e ∈ evs, P e) :
    Grows P w w2 := by
  obtain ⟨evs1, h1, h2⟩ := h
  refine ⟨evs1 ++ evs, by simp [hlog, h1], ?_⟩
  intro e he
  rcases List.mem_append.1 he with he | he
  · exact h2 e he
  · exact hP e he

theorem Grows.emit {P : Event → Prop} {w w1 : World} (h : Grows P w w1) (e : Event)
    (he : P e) : Grows P w (w1.emit e) :=
  h.of_log [e] rfl (by simpa using he)

theorem Grows.send {P : Event → Prop} {w w1 : World} (h : Grows P w w1) (m : String)
    (he : P (Event.Send m)) : Grows P w (w1.send m) :=
  h.emit (Event.Send m) he

theorem Grows.sendAll {P : Event → Prop} {w w1 : World} (h : Grows P w w1)
    (ms : List String) (he : ∀ m, P (Event.Send m)) : Grows P w (w1.sendAll ms) := by
  refine h.of_log (ms.map Event.Send) rfl ?_
  intro e hmem
  obtain ⟨m, -, rfl⟩ := List.mem_map.1 hmem
  exact he m

theorem Grows.trans {P : Event → Prop} {w w1 w2 : World} (h : Grows P w w1)
    (h12 : Grows P w1 w2) : Grows P w w2 := by
  obtain ⟨evs, hlog, hP⟩ := h12
  exact h.of_log evs hlog hP

theorem Grows.mono {P Q : Event → Prop} {w w1 : World} (h : Grows P w w1)
    (hPQ : ∀ e, P e → Q e) : Grows Q w w1 := by
  obtain ⟨evs, hlog, hP⟩ := h
  exact ⟨evs, hlog, fun e he => hPQ e (hP e he)⟩

theorem Grows.initial {P : Event → Prop} {w w1 : World} (h : Grows P w w1) :
    w.log <+: w1.log := by
  obtain ⟨evs, hlog, -⟩ := h
  exact ⟨evs, hlog.symm⟩

theorem isQuiet_not_close {e : Event} (h : e.isQuiet = true) : e ≠ Event.Close := by
  intro hc
  subst hc
  simp [Event.isQuiet] at h

theorem isQuiet_not_update {e : Event} (h : e.isQuiet = true) (p1 : Project) :
    e ≠ Event.ProjectUpdate p1 := by
  intro hc
  subst hc
  simp [Event.isQuiet, Event.isWrite] at h

theorem isQuiet_not_write {e : Event} (h : e.isQuiet = true) : e.isWrite = false := by
  cases e <;> simp_all [Event.isQuiet, Event.isWrite]

theorem Get_eq {s : ProjectService} {id : UUID} {w w1 : World} {r : Except GoError Project}
    (h : s.Get id w = (r, w1)) :
    w1 = w.emit (Event.FindByID id) ∧
      ∀ p, r = Except.ok p → w.project id = some p ∧ p.ID = id := by
  have := Get_spec s id w
  rw [h] at this
  exact this

theorem Update_eq {s : ProjectService} {p : Project} {w w1 : World} {r : Option GoError}
    (h : projectRepository.Update s p w = (r, w1)) :
    w1.log = w.log ++ [Event.ProjectUpdate p] ∧ w1.deployments = w.deployments ∧
      w1.dirs = w.dirs ∧ r = s.fault w (Event.ProjectUpdate p) ∧
      (r = none → w1.projects = w.projects.map (fun q => if q.ID = p.ID then p else q)) ∧
      (r ≠ none → w1.projects = w.projects) := by
  unfold projectRepository.Update at h
  cases hf : s.fault w (Event.ProjectUpdate p) with
  | some err =>
    simp only [hf, Prod.mk.injEq] at h
    obtain ⟨rfl, rfl⟩ := h
    simp
  | none =>
    simp only [hf, Prod.mk.injEq] at h
    obtain ⟨rfl, rfl⟩ := h
    simp

theorem DeploymentCreate_eq {s : ProjectService} {d : Deployment} {w w1 : World}
    {r : Option GoError} (h : deploymentRepository.Create s d w = (r, w1)) :
    w1.log = w.log ++ [Event.DeploymentCreate d] ∧ w1.projects = w.projects ∧
      w1.dirs = w.dirs ∧
      (r = none → w1.deployments = w.deployments ++ [d]) ∧
      (r ≠ none → w1.deployments = w.deployments) := by
  unfold deploymentRepository.Create at h
  cases hf : s.fault w (Event.DeploymentCreate d) with
  | some err =>
    simp only [hf, Prod.mk.injEq] at h
    obtain ⟨rfl, rfl⟩ := h
    simp
  | none =>
    simp only [hf] at h
    split at h
    · simp only [Prod.mk.injEq] at h
      obtain ⟨rfl, rfl⟩ := h
      simp
    · simp only [Prod.mk.injEq] at h
      obtain ⟨rfl, rfl⟩ := h
      simp

theorem Delete_eq {s : ProjectService} {id : UUID} {w w1 : World} {r : Option GoError}
    (h : projectRepository.Delete s id w = (r, w1)) :
    w1.log = w.log ++ [Event.ProjectDelete id] ∧ w1.dirs = w.dirs ∧
      (r = none → w1.projects = w.projects.filter (fun p => !decide (p.ID = id))) ∧
      (r ≠ none → w1.projects = w.projects ∧ w1.deployments = w.deployments) := by
  unfold projectRepository.Delete at h
  cases hf : s.fault w (Event.ProjectDelete id) with
  | some err =>
    simp only [hf, Prod.mk.injEq] at h
    obtain ⟨rfl, rfl⟩ := h
    simp
  | none =>
    simp only [hf, Prod.mk.injEq] at h
    obtain ⟨rfl, rfl⟩ := h
    simp

theorem RemoveAll_eq {s : ProjectService} {path : String} {w w1 : World} {r : Option GoError}
    (h : osRemoveAll s path w = (r, w1)) :
    w1.log = w.log ++ [Event.RemoveAll path] ∧ w1.projects = w.projects ∧
      w1.deployments = w.deployments ∧ r = s.fault w (Event.RemoveAll path) ∧
      (r = none →
        w1.dirs = w.dirs.filter (fun d => !(decide (d = path) || s.within path d))) ∧
      (r ≠ none → w1.dirs = w.dirs) := by
  unfold osRemoveAll at h
  cases hf : s.fault w (Event.RemoveAll path) with
  | some err =>
    simp only [hf, Prod.mk.injEq] at h
    obtain ⟨rfl, rfl⟩ := h
    simp
  | none =>
    simp only [hf, Prod.mk.injEq] at h
    obtain ⟨rfl, rfl⟩ := h
    simp

theorem pullLatestChanges_eq {s : ProjectService} {p : Project} {w w1 : World}
    {r : Option GoError} (h : s.pullLatestChanges p w = (r, w1)) :
    w1.projects = w.projects ∧ w1.deployments = w.deployments ∧ w1.dirs = w.dirs ∧
      Grows (fun e => e.isQuiet = true) w w1 := by
  unfold ProjectService.pullLatestChanges at h
  split at h
  · simp only [Prod.mk.injEq] at h
    obtain ⟨-, rfl⟩ := h
    exact ⟨rfl, rfl, rfl, Grows.refl _ _⟩
  · rename_i gitDir hgd
    simp only [gitPull] at h
    split at h
    · rename_i err wa hpull
      simp only [Prod.mk.injEq] at h hpull
      obtain ⟨-, rfl⟩ := h
      obtain ⟨-, rfl⟩ := hpull
      exact ⟨rfl, rfl, rfl, (Grows.refl _ _).emit _ rfl⟩
    · rename_i wa hpull
      simp only [Prod.mk.injEq] at h hpull
      obtain ⟨-, rfl⟩ := h
      obtain ⟨-, rfl⟩ := hpull
      exact ⟨rfl, rfl, rfl, (Grows.refl _ _).emit _ rfl⟩

theorem DeployStreaming_body_spec (s : ProjectService) (id : UUID) (pull : Bool) (w : World) :
    ∃ evs, (ProjectService.DeployStreaming.body s id pull w).2.log = w.log ++ evs ∧
      Event.Close ∉ evs ∧
      (ProjectService.DeployStreaming.body s id pull w).2.dirs = w.dirs ∧
      ((∃ err, (ProjectService.DeployStreaming.body s id pull w).1 = some err ∧
          (ProjectService.DeployStreaming.body s id pull w).2.projects = w.projects ∧
          (ProjectService.DeployStreaming.body s id pull w).2.deployments = w.deployments ∧
          ∀ e ∈ evs, ∀ p1, e ≠ Event.ProjectUpdate p1) ∨
       (∃ p gitDir wc hash pre err,
          w.project id = some p ∧ p.ID = id ∧ s.GitDir p = (gitDir, none) ∧
          wc.projects = w.projects ∧ wc.deployments = w.deployments ∧ wc.dirs = w.dirs ∧
          w.log <+: wc.log ∧
          s.gitService.GetLatestCommit wc gitDir = (hash, none) ∧
          evs = pre ++
            [Event.DeploymentCreate
                { NewDeployment s (wc.emit (Event.GetLatestCommit gitDir)) id hash with
                  Status := DeploymentStatusCompleted },
              Event.ProjectUpdate
                { p with Status := ProjectStatusRunning, LastCommit := some hash }] ∧
          (∀ e ∈ pre, e.isWrite = false) ∧
          s.fault
              { projects := w.projects
                deployments := w.deployments ++
                  [{ NewDeployment s (wc.emit (Event.GetLatestCommit gitDir)) id hash with
                      Status := DeploymentStatusCompleted }]
                dirs := w.dirs
                log := w.log ++ pre ++
                  [Event.DeploymentCreate
                    { NewDeployment s (wc.emit (Event.GetLatestCommit gitDir)) id hash with
                      Status := DeploymentStatusCompleted }] }
              (Event.ProjectUpdate
                { p with Status := ProjectStatusRunning, LastCommit := some hash })
            = some err ∧
          (ProjectService.DeployStreaming.body s id pull w).1
            = some (GoError.wrap "failed to update project status: " err) ∧
          (ProjectService.DeployStreaming.body s id pull w).2.projects = w.projects ∧
          (ProjectService.DeployStreaming.body s id pull w).2.deployments
            = w.deployments ++
              [{ NewDeployment s (wc.emit (Event.GetLatestCommit gitDir)) id hash with
                  Status := DeploymentStatusCompleted }]) ∨
       (∃ p gitDir wc hash pre,
          w.project id = some p ∧ p.ID = id ∧ s.GitDir p = (gitDir, none) ∧
          wc.projects = w.projects ∧ wc.deployments = w.deployments ∧ wc.dirs = w.dirs ∧
          w.log <+: wc.log ∧
          s.gitService.GetLatestCommit wc gitDir = (hash, none) ∧
          evs = pre ++
            [Event.DeploymentCreate
                { NewDeployment s (wc.emit (Event.GetLatestCommit gitDir)) id hash with
                  Status := DeploymentStatusCompleted },
              Event.ProjectUpdate
                { p with Status := ProjectStatusRunning, LastCommit := some hash }] ∧
          (∀ e ∈ pre, e.isWrite = false) ∧
          (ProjectService.DeployStreaming.body s id pull w).1 = none ∧
          (ProjectService.DeployStreaming.body s id pull w).2.deployments
            = w.deployments ++
              [{ NewDeployment s (wc.emit (Event.GetLatestCommit gitDir)) id hash with
                  Status := DeploymentStatusCompleted }] ∧
          (ProjectService.DeployStreaming.body s id pull w).2.projects
            = w.projects.map (fun q => if q.ID = id then
                { p with Status := ProjectStatusRunning, LastCommit := some hash } else q))) := by
  unfold ProjectService.DeployStreaming.body
  split
  · rename_i err w1 hg
    obtain ⟨rfl, -⟩ := Get_eq hg
    exact ⟨[Event.FindByID id], rfl, by simp, rfl, Or.inl ⟨_, rfl, rfl, rfl, by simp⟩⟩
  · rename_i p w1 hg
    obtain ⟨rfl, hp⟩ := Get_eq hg
    obtain ⟨hfound, hid⟩ := hp p rfl
    split
    · rename_i err hgd
      exact ⟨[Event.FindByID id], rfl, by simp, rfl, Or.inl ⟨_, rfl, rfl, rfl, by simp⟩⟩
    · rename_i gitDir hgd
      simp only []
      rcases hpulled : ite (pull = true) _ _ with ⟨r2, w2⟩
      have h2 : w2.projects = w.projects ∧ w2.deployments = w.deployments ∧ w2.dirs = w.dirs ∧
          Grows (fun e => e.isQuiet = true) w w2 := by
        have h0 : Grows (fun e => e.isQuiet = true) w (w.emit (Event.FindByID id)) :=
          (Grows.refl _ _).emit _ rfl
        cases pull with
        | false =>
          simp only [Bool.false_eq_true, if_false, Prod.mk.injEq] at hpulled
          obtain ⟨-, rfl⟩ := hpulled
          exact ⟨rfl, rfl, rfl, h0⟩
        | true =>
          simp only [if_true] at hpulled
          rcases hpl : s.pullLatestChanges p _ with ⟨r, wb⟩
          obtain ⟨h1, h2, h3, h4⟩ := pullLatestChanges_eq hpl
          rw [hpl] at hpulled
          have h5 := (h0.send "OAR_MSG:default:Pulling latest changes from Git..." rfl).trans h4
          cases r with
          | some err =>
            simp only [Prod.mk.injEq] at hpulled
            obtain ⟨-, rfl⟩ := hpulled
            exact ⟨h1, h2, h3, h5.send _ rfl⟩
          | none =>
            simp only [Prod.mk.injEq] at hpulled
            obtain ⟨-, rfl⟩ := hpulled
            exact ⟨h1, h2, h3, h5.send _ rfl⟩
      obtain ⟨hpr2, hde2, hdi2, hg2⟩ := h2
      cases r2 with
      | some err =>
        obtain ⟨ev2, hlog2, hev2⟩ := hg2
        exact ⟨ev2, hlog2, fun hc => isQuiet_not_close (hev2 _ hc) rfl, hdi2,
          Or.inl ⟨_, rfl, hpr2, hde2, fun e he => isQuiet_not_update (hev2 e he)⟩⟩
      | none =>
        simp only [gitGetLatestCommit]
        have hg3 := hg2.emit (Event.GetLatestCommit gitDir) rfl
        split
        · rename_i c err w3 hc
          simp only [Prod.mk.injEq] at hc
          obtain ⟨-, rfl⟩ := hc
          obtain ⟨ev3, hlog3, hev3⟩ := hg3
          exact ⟨ev3, hlog3, fun hc => isQuiet_not_close (hev3 _ hc) rfl, hdi2,
            Or.inl ⟨_, rfl, hpr2, hde2, fun e he => isQuiet_not_update (hev3 e he)⟩⟩
        · rename_i hash w3 hc
          simp only [Prod.mk.injEq] at hc
          obtain ⟨hc, rfl⟩ := hc
          simp only [NewComposeProject, ComposeProject.UpStreaming]
          have hg5 := (((hg3.send "OAR_MSG:default:Starting Docker Compose deployment..." rfl).emit
            (Event.UpStreaming p) rfl).sendAll
              (s.compose.UpStreaming ((w2.emit (Event.GetLatestCommit gitDir)).send
                "OAR_MSG:default:Starting Docker Compose deployment...") p).1 (fun _ => rfl))
          split
          · rename_i err w5 hu
            simp only [Prod.mk.injEq] at hu
            obtain ⟨-, rfl⟩ := hu
            obtain ⟨ev5, hlog5, hev5⟩ := hg5
            exact ⟨ev5, hlog5, fun hc => isQuiet_not_close (hev5 _ hc) rfl, hdi2,
              Or.inl ⟨_, rfl, hpr2, hde2, fun e he => isQuiet_not_update (hev5 e he)⟩⟩
          · rename_i w5 hu
            simp only [Prod.mk.injEq] at hu
            obtain ⟨-, rfl⟩ := hu
            have hg6 := hg5.send
              "OAR_MSG:success:Docker Compose deployment completed successfully" rfl
            rcases hD : deploymentRepository.Create s _ _ with ⟨rD, w7⟩
            obtain ⟨hlog7, hpr7, hdi7, hok7, hbad7⟩ := DeploymentCreate_eq hD
            have hg7 : Grows (fun e => e ≠ Event.Close ∧ ∀ p1, e ≠ Event.ProjectUpdate p1) w w7 :=
              (hg6.mono (fun e he => ⟨isQuiet_not_close he, isQuiet_not_update he⟩)).of_log _
                hlog7 (by simp)
            simp only [World.send_log, World.sendAll_log, World.emit_log, World.send_projects,
              World.sendAll_projects, World.emit_projects, World.send_dirs, World.sendAll_dirs,
              World.emit_dirs, World.send_deployments, World.sendAll_deployments,
              World.emit_deployments] at hlog7 hpr7 hdi7 hok7 hbad7
            obtain ⟨ev6, hlog6, hev6⟩ := hg6
            simp only [World.send_log, World.sendAll_log, World.emit_log] at hlog6
            cases rD with
            | some err =>
              simp only []
              obtain ⟨ev7, hlog7b, hev7⟩ := hg7
              refine ⟨ev7, hlog7b, fun hc => (hev7 _ hc).1 rfl, ?_,
                Or.inl ⟨_, rfl, ?_, ?_, fun e he => (hev7 e he).2⟩⟩
              · rw [hdi7, hdi2]
              · rw [hpr7, hpr2]
              · rw [hbad7 (by simp), hde2]
            | none =>
              simp only []
              rcases hU : projectRepository.Update s _ _ with ⟨rU, w8⟩
              obtain ⟨hlog8, hde8, hdi8, hf8, hok8, hbad8⟩ := Update_eq hU
              have hcommon : w8.log = w.log ++ (ev6 ++
                  [Event.DeploymentCreate
                    { NewDeployment s (w2.emit (Event.GetLatestCommit gitDir)) id hash with
                      Status := DeploymentStatusCompleted },
                   Event.ProjectUpdate
                    { p with Status := ProjectStatusRunning, LastCommit := some hash }]) := by
                rw [hlog8, hlog7, hlog6]
                simp
              have hnc : Event.Close ∉ ev6 ++
                  [Event.DeploymentCreate
                    { NewDeployment s (w2.emit (Event.GetLatestCommit gitDir)) id hash with
                      Status := DeploymentStatusCompleted },
                   Event.ProjectUpdate
                    { p with Status := ProjectStatusRunning, LastCommit := some hash }] := by
                intro hc
                rcases List.mem_append.1 hc with hc | hc
                · exact isQuiet_not_close (hev6 _ hc) rfl
                · simp at hc
              cases rU with
              | some err =>
                have hw7 : w7 =
                    { projects := w.projects
                      deployments := w.deployments ++
                        [{ NewDeployment s (w2.emit (Event.GetLatestCommit gitDir)) id hash with
                            Status := DeploymentStatusCompleted }]
                      dirs := w.dirs
                      log := w.log ++ ev6 ++
                        [Event.DeploymentCreate
                          { NewDeployment s (w2.emit (Event.GetLatestCommit gitDir)) id hash with
                            Status := DeploymentStatusCompleted }] } := by
                  have h7d := hok7 rfl
                  cases w7
                  simp only [World.mk.injEq]
                  simp only at hpr7 hdi7 h7d hlog7
                  refine ⟨hpr7.trans hpr2, ?_, hdi7.trans hdi2, ?_⟩
                  · rw [h7d, hde2]
                  · rw [hlog7, hlog6]
                refine ⟨_, hcommon, hnc, by rw [hdi8, hdi7, hdi2], Or.inr (Or.inl
                  ⟨p, gitDir, w2, hash, ev6, err, hfound, hid, hgd, hpr2, hde2, hdi2,
                    hg2.initial, hc, rfl, fun e he => isQuiet_not_write (hev6 e he),
                    ?_, rfl, ?_, ?_⟩)⟩
                · rw [← hw7]
                  exact hf8.symm
                · rw [hbad8 (by simp), hpr7, hpr2]
                · rw [hde8, hok7 rfl, hde2]
              | none =>
                refine ⟨_, hcommon, hnc, by rw [hdi8, hdi7, hdi2], Or.inr (Or.inr
                  ⟨p, gitDir, w2, hash, ev6, hfound, hid, hgd, hpr2, hde2, hdi2, hg2.initial, hc,
                    rfl, fun e he => isQuiet_not_write (hev6 e he), rfl, ?_, ?_⟩)⟩
                · rw [hde8, hok7 rfl, hde2]
                · rw [hok8 rfl, hpr7, hpr2]
                  simp only [hid]


theorem StartStreaming_grows (s : ProjectService) (id : UUID) (w : World) :
    Grows (fun e => e ≠ Event.Close) w (s.StartStreaming id w).2 := by
  have h0 : Grows (fun e => e ≠ Event.Close) w (w.emit (Event.FindByID id)) :=
    (Grows.refl _ _).emit _ (by simp)
  unfold ProjectService.StartStreaming
  split
  · rename_i err w1 hg
    obtain ⟨rfl, -⟩ := Get_eq hg
    exact h0
  · rename_i p w1 hg
    obtain ⟨rfl, -⟩ := Get_eq hg
    simp only [NewComposeProject, ComposeProject.UpStreaming]
    have h1 := (h0.emit (Event.UpStreaming p) (by simp)).sendAll
      (s.compose.UpStreaming (w.emit (Event.FindByID id)) p).1 (by simp)
    split
    · rename_i err w2 hu
      simp only [Prod.mk.injEq] at hu
      obtain ⟨-, rfl⟩ := hu
      exact h1
    · rename_i w2 hu
      simp only [Prod.mk.injEq] at hu
      obtain ⟨-, rfl⟩ := hu
      simp only [ProjectService.Update]
      rcases hU : projectRepository.Update s _ _ with ⟨r, w3⟩
      obtain ⟨hlog, -⟩ := Update_eq hU
      exact h1.of_log _ hlog (by simp)

theorem StopStreaming_body_grows (s : ProjectService) (id : UUID) (w : World) :
    Grows (fun e => e ≠ Event.Close) w (ProjectService.StopStreaming.body s id w).2 := by
  have h0 : Grows (fun e => e ≠ Event.Close) w (w.emit (Event.FindByID id)) :=
    (Grows.refl _ _).emit _ (by simp)
  unfold ProjectService.StopStreaming.body
  split
  · rename_i err w1 hg
    obtain ⟨rfl, -⟩ := Get_eq hg
    exact h0
  · rename_i p w1 hg
    obtain ⟨rfl, -⟩ := Get_eq hg
    simp only [NewComposeProject, ComposeProject.DownStreaming]
    have h1 := (((h0.send "OAR_MSG:default:Starting Docker Compose shutdown..." (by simp)).emit
      (Event.DownStreaming p) (by simp)).sendAll
      (s.compose.DownStreaming ((w.emit (Event.FindByID id)).send
        "OAR_MSG:default:Starting Docker Compose shutdown...") p).1 (by simp))
    split
    · rename_i err w2 hu
      simp only [Prod.mk.injEq] at hu
      obtain ⟨-, rfl⟩ := hu
      exact h1
    · rename_i w2 hu
      simp only [Prod.mk.injEq] at hu
      obtain ⟨-, rfl⟩ := hu
      simp only [ProjectService.Update]
      rcases hU : projectRepository.Update s _ _ with ⟨r, w3⟩
      obtain ⟨hlog, -⟩ := Update_eq hU
      exact (h1.send "OAR_MSG:success:Docker Compose shutdown completed successfully"
        (by simp)).of_log _ hlog (by simp)

theorem GetLogsStreaming_body_grows (s : ProjectService) (id : UUID) (w : World) :
    Grows (fun e => e ≠ Event.Close) w (ProjectService.GetLogsStreaming.body s id w).2 := by
  have h0 : Grows (fun e => e ≠ Event.Close) w (w.emit (Event.FindByID id)) :=
    (Grows.refl _ _).emit _ (by simp)
  unfold ProjectService.GetLogsStreaming.body
  split
  · rename_i err w1 hg
    obtain ⟨rfl, -⟩ := Get_eq hg
    exact h0
  · rename_i p w1 hg
    obtain ⟨rfl, -⟩ := Get_eq hg
    simp only [NewComposeProject, ComposeProject.LogsStreaming]
    have h1 := (h0.emit (Event.LogsStreaming p) (by simp)).sendAll
      (s.compose.LogsStreaming (w.emit (Event.FindByID id)) p).1 (by simp)
    split
    · rename_i err w2 hu
      simp only [Prod.mk.injEq] at hu
      obtain ⟨-, rfl⟩ := hu
      exact h1
    · rename_i w2 hu
      simp only [Prod.mk.injEq] at hu
      obtain ⟨-, rfl⟩ := hu
      exact h1

/-- The three streaming operations that defer `close(outputChan)` close the
channel exactly once, as their last call, on every path. -/
theorem deferred_close_once (s : ProjectService) (id : UUID) (pull : Bool) (w : World) :
    (∃ evs, (s.DeployStreaming id pull w).2.log = w.log ++ evs ++ [Event.Close] ∧
        Event.Close ∉ evs) ∧
    (∃ evs, (s.StopStreaming id w).2.log = w.log ++ evs ++ [Event.Close] ∧
        Event.Close ∉ evs) ∧
    (∃ evs, (s.GetLogsStreaming id w).2.log = w.log ++ evs ++ [Event.Close] ∧
        Event.Close ∉ evs) := by
  refine ⟨?_, ?_, ?_⟩
  · obtain ⟨evs, hlog, hnc, -⟩ := DeployStreaming_body_spec s id pull w
    exact ⟨evs, by simp [ProjectService.DeployStreaming, hlog], hnc⟩
  · obtain ⟨evs, hlog, hnc⟩ := StopStreaming_body_grows s id w
    exact ⟨evs, by simp [ProjectService.StopStreaming, hlog], fun hc => hnc _ hc rfl⟩
  · obtain ⟨evs, hlog, hnc⟩ := GetLogsStreaming_body_grows s id w
    exact ⟨evs, by simp [ProjectService.GetLogsStreaming, hlog], fun hc => hnc _ hc rfl⟩

/-- C1 (defect in `StartStreaming`): unlike its three siblings, `StartStreaming`
never closes its output channel.  On a project id that does not resolve it
returns the not-found error having issued the lookup only; on a successful
start it forwards the compose output and updates the project; on every path
the calls it adds to the record contain no close. -/
theorem StartStreaming_never_closes :
    sampleService.StartStreaming sampleID emptyWorld
      = (some (GoError.wrap "project not found: " ErrRecordNotFound),
          { emptyWorld with log := [Event.FindByID sampleID] }) ∧
    sampleService.StartStreaming sampleID sampleWorld
      = (none,
          { sampleWorld with
            projects := [{ sampleProject with Status := ProjectStatusRunning }]
            log := [Event.FindByID sampleID, Event.UpStreaming sampleProject,
              Event.Send "Container web  Started",
              Event.ProjectUpdate { sampleProject with Status := ProjectStatusRunning }] }) ∧
    ∀ (s : ProjectService) (id : UUID) (w : World),
      ∃ evs, (s.StartStreaming id w).2.log = w.log ++ evs ∧ Event.Close ∉ evs := by
  refine ⟨by decide, by decide, ?_⟩
  intro s id w
  obtain ⟨evs, hlog, hnc⟩ := StartStreaming_grows s id w
  exact ⟨evs, hlog, fun hc => hnc _ hc rfl⟩

/-- C5: when the project repository does not resolve the id, `DeployStreaming`
(with or without pull) returns the not-found error wrapping the repository's
error; the only calls it issues are the lookup and the closing of the channel,
so no message is sent, neither executor is invoked, and tables and directories
are untouched.  An id without a record is never resolved. -/
theorem DeployStreaming_not_found (s : ProjectService) (id : UUID) (pull : Bool) (w : World) :
    (w.project id = none → ∃ err, (projectRepository.FindByID s id w).1 = Except.error err) ∧
    ∀ err, (projectRepository.FindByID s id w).1 = Except.error err →
      s.DeployStreaming id pull w
        = (some (GoError.wrap "project not found: " err),
            { w with log := w.log ++ [Event.FindByID id, Event.Close] }) := by
  constructor
  · intro hnone
    unfold World.project at hnone
    unfold projectRepository.FindByID
    cases hf : s.fault w (Event.FindByID id) with
    | some err => exact ⟨err, by simp⟩
    | none => exact ⟨ErrRecordNotFound, by simp [hnone]⟩
  · intro err h
    have hget : s.Get id w = (Except.error err, w.emit (Event.FindByID id)) := by
      rcases hg : s.Get id w with ⟨r, w1⟩
      obtain ⟨rfl, -⟩ := Get_eq hg
      unfold ProjectService.Get at hg
      rcases hf : projectRepository.FindByID s id w with ⟨r0, w0⟩
      rw [hf] at h hg
      simp only at h
      subst h
      simp only [Prod.mk.injEq] at hg
      rw [← hg.1]
    simp [ProjectService.DeployStreaming, ProjectService.DeployStreaming.body, hget,
      World.close, World.emit]

/-- The not-found path of `DeployStreaming` on an empty project table. -/
theorem DeployStreaming_not_found_witness :
    sampleService.DeployStreaming sampleID true emptyWorld
      = (some (GoError.wrap "project not found: " ErrRecordNotFound),
          { emptyWorld with log := emptyWorld.log ++ [Event.FindByID sampleID, Event.Close] }) :=
  (DeployStreaming_not_found sampleService sampleID true emptyWorld).2 ErrRecordNotFound rfl

/-- C6 (as stated, refuted): when persisting the Project update is the failing
step, `DeployStreaming` returns an error although the Deployment record created
just before is persisted. -/
theorem DeployStreaming_update_failure_keeps_deployment :
    (updateFailService.DeployStreaming sampleID false sampleWorld).1
      = some (GoError.wrap "failed to update project status: " boom) ∧
    sampleWorld.deployments = [] ∧
    (updateFailService.DeployStreaming sampleID false sampleWorld).2.deployments
      = [{ ID := { text := "d1" }, ProjectID := sampleID, CommitHash := "c0ffee",
           CommandLine := "", Status := DeploymentStatus.Success, Output := "" }] := by
  decide

/-- C6 (amended): let `DeployStreaming` return an error, and let `evs` be the
calls it issued before the closing of the channel.  If no Project update is
among them (the failing step is an earlier one: git directory, git pull,
reading the latest commit, compose up, persisting the Deployment), the
deployment table is what it was before the call.  If a Project update is among
them, that update is the failing step: the calls end with the creation of the
Deployment `d` (the project's id, status Success) followed by the update, the
update failed in the world left by that creation, the returned error wraps the
update's error, and the deployment table is the one before the call followed
by `d`: the Deployment stays persisted. -/
theorem DeployStreaming_error_deployments (s : ProjectService) (id : UUID) (pull : Bool)
    (w : World) (err : GoError) (evs : List Event)
    (h : (s.DeployStreaming id pull w).1 = some err)
    (hlog : (s.DeployStreaming id pull w).2.log = w.log ++ evs ++ [Event.Close]) :
    ((∀ p1, Event.ProjectUpdate p1 ∉ evs) →
      (s.DeployStreaming id pull w).2.deployments = w.deployments) ∧
    ((∃ p1, Event.ProjectUpdate p1 ∈ evs) →
      ∃ p hash pre d e,
        w.project id = some p ∧
        d.ProjectID = id ∧ d.CommitHash = hash ∧ d.Status = DeploymentStatus.Success ∧
        evs = pre ++
          [Event.DeploymentCreate d,
            Event.ProjectUpdate
              { p with Status := ProjectStatusRunning, LastCommit := some hash }] ∧
        (∀ c ∈ pre, c.isWrite = false) ∧
        s.fault
            { projects := w.projects, deployments := w.deployments ++ [d], dirs := w.dirs,
              log := w.log ++ pre ++ [Event.DeploymentCreate d] }
            (Event.ProjectUpdate
              { p with Status := ProjectStatusRunning, LastCommit := some hash })
          = some e ∧
        err = GoError.wrap "failed to update project status: " e ∧
        (s.DeployStreaming id pull w).2.deployments = w.deployments ++ [d] ∧
        (s.DeployStreaming id pull w).2.projects = w.projects) := by
  simp only [ProjectService.DeployStreaming, World.close_deployments, World.close_projects,
    World.close_log] at h hlog ⊢
  obtain ⟨evs0, hlog0, -, -, hcases⟩ := DeployStreaming_body_spec s id pull w
  have hevs : evs0 = evs := by
    rw [hlog0] at hlog
    have h1 := List.append_cancel_right hlog
    exact List.append_cancel_left h1
  subst hevs
  rcases hcases with ⟨e, -, -, hd, hnu⟩ |
    ⟨p, g, wc, hash, pre, e, hfound, -, -, -, -, -, -, -, hev, hq, hf, hr, hP, hD⟩ |
    ⟨p, g, wc, hash, pre, hrest⟩
  · refine ⟨fun _ => hd, ?_⟩
    rintro ⟨p1, hp1⟩
    exact absurd rfl (hnu _ hp1 p1)
  · constructor
    · intro hno
      exfalso
      apply hno { p with Status := ProjectStatusRunning, LastCommit := some hash }
      rw [hev]
      simp
    · intro _
      refine ⟨p, hash, pre, _, e, hfound, rfl, rfl, rfl, hev, hq, hf, ?_, hD, hP⟩
      rw [hr] at h
      exact (Option.some.inj h).symm
  · have hnone := hrest.2.2.2.2.2.2.2.2.2.2.1
    rw [hnone] at h
    cases h

/-- A failing Project update: the Deployment created just before it stays
persisted.  A failing git pull: no update is issued and the deployment table is
untouched. -/
theorem DeployStreaming_error_deployments_witness :
    (updateFailService.DeployStreaming sampleID false sampleWorld).1
      = some (GoError.wrap "failed to update project status: " boom) ∧
    (∃ p hash pre d e,
      sampleWorld.project sampleID = some p ∧
      d.ProjectID = sampleID ∧ d.CommitHash = hash ∧ d.Status = DeploymentStatus.Success ∧
      [Event.FindByID sampleID, Event.GetLatestCommit "/ws/p1/git",
        Event.Send "OAR_MSG:default:Starting Docker Compose deployment...",
        Event.UpStreaming sampleProject, Event.Send "Container web  Started",
        Event.Send "OAR_MSG:success:Docker Compose deployment completed successfully",
        Event.DeploymentCreate
          { ID := { text := "d1" }, ProjectID := sampleID, CommitHash := "c0ffee",
            CommandLine := "", Status := DeploymentStatus.Success, Output := "" },
        Event.ProjectUpdate
          { sampleProject with Status := ProjectStatusRunning, LastCommit := some "c0ffee" }]
        = pre ++
          [Event.DeploymentCreate d,
            Event.ProjectUpdate
              { p with Status := ProjectStatusRunning, LastCommit := some hash }] ∧
      (∀ c ∈ pre, c.isWrite = false) ∧
      updateFailService.fault
          { projects := sampleWorld.projects, deployments := sampleWorld.deployments ++ [d],
            dirs := sampleWorld.dirs,
            log := sampleWorld.log ++ pre ++ [Event.DeploymentCreate d] }
          (Event.ProjectUpdate
            { p with Status := ProjectStatusRunning, LastCommit := some hash })
        = some e ∧
      GoError.wrap "failed to update project status: " boom
        = GoError.wrap "failed to update project status: " e ∧
      (updateFailService.DeployStreaming sampleID false sampleWorld).2.deployments
        = sampleWorld.deployments ++ [d] ∧
      (updateFailService.DeployStreaming sampleID false sampleWorld).2.projects
        = sampleWorld.projects) ∧
    (pullFailService.DeployStreaming sampleID true sampleWorld).1
      = some (GoError.wrap "failed to pull changes: " boom) ∧
    (pullFailService.DeployStreaming sampleID true sampleWorld).2.deployments
      = sampleWorld.deployments :=
  ⟨by decide,
    (DeployStreaming_error_deployments updateFailService sampleID false sampleWorld
      (GoError.wrap "failed to update project status: " boom)
      [Event.FindByID sampleID, Event.GetLatestCommit "/ws/p1/git",
        Event.Send "OAR_MSG:default:Starting Docker Compose deployment...",
        Event.UpStreaming sampleProject, Event.Send "Container web  Started",
        Event.Send "OAR_MSG:success:Docker Compose deployment completed successfully",
        Event.DeploymentCreate
          { ID := { text := "d1" }, ProjectID := sampleID, CommitHash := "c0ffee",
            CommandLine := "", Status := DeploymentStatus.Success, Output := "" },
        Event.ProjectUpdate
          { sampleProject with Status := ProjectStatusRunning, LastCommit := some "c0ffee" }]
      (by decide) (by decide)).2
      ⟨{ sampleProject with Status := ProjectStatusRunning, LastCommit := some "c0ffee" },
        by decide⟩,
    by decide,
    (DeployStreaming_error_deployments pullFailService sampleID true sampleWorld
      (GoError.wrap "failed to pull changes: " boom)
      [Event.FindByID sampleID,
        Event.Send "OAR_MSG:default:Pulling latest changes from Git...",
        Event.Pull "/ws/p1/git",
        Event.Send "OAR_MSG:error:Failed to pull latest changes: failed to pull changes: boom"]
      (by decide) (by decide)).1 (by simp)⟩

theorem any_filter_not (p : String → Bool) (l : List String) :
    (l.filter (fun d => !p d)).any p = false := by
  induction l with
  | nil => rfl
  | cons a rest ih =>
    cases ha : p a <;> simp_all [List.filter]

theorem find_filter_none (ps : List Project) (id : UUID) :
    (ps.filter (fun p => !decide (p.ID = id))).find? (fun p => decide (p.ID = id)) = none := by
  induction ps with
  | nil => rfl
  | cons a rest ih =>
    by_cases ha : a.ID = id <;> simp_all [List.filter, List.find?]

theorem Stop_eq {s : ProjectService} {id : UUID} {w w1 : World} {r : Option GoError}
    (h : s.Stop id w = (r, w1)) :
    w1.dirs = w.dirs ∧ w1.deployments = w.deployments ∧
      Grows (fun e => e.isRemoval = false) w w1 ∧ (r ≠ none → w1.projects = w.projects) := by
  have h0 : Grows (fun e => e.isRemoval = false) w (w.emit (Event.FindByID id)) :=
    (Grows.refl _ _).emit _ rfl
  unfold ProjectService.Stop at h
  split at h
  · rename_i err wa hg
    obtain ⟨rfl, -⟩ := Get_eq hg
    simp only [Prod.mk.injEq] at h
    obtain ⟨-, rfl⟩ := h
    exact ⟨rfl, rfl, h0, fun _ => rfl⟩
  · rename_i p wa hg
    obtain ⟨rfl, -⟩ := Get_eq hg
    simp only [NewComposeProject, ComposeProject.Down] at h
    have h1 := h0.emit (Event.Down p) rfl
    split at h
    · rename_i out err wb hd
      simp only [Prod.mk.injEq] at h hd
      obtain ⟨-, rfl⟩ := h
      obtain ⟨-, rfl⟩ := hd
      exact ⟨rfl, rfl, h1, fun _ => rfl⟩
    · rename_i out wb hd
      simp only [Prod.mk.injEq] at hd
      obtain ⟨-, rfl⟩ := hd
      simp only [ProjectService.Update] at h
      obtain ⟨hlog, hde, hdi, -, -, hbad⟩ := Update_eq h
      exact ⟨hdi, hde, h1.of_log _ hlog (by simp [Event.isRemoval]), hbad⟩

/-- C8: `Remove` looks the project up (its record exists) and then stops it
before anything else.  When the stop step fails, `Remove` returns the wrapped
error of the stop, no removal of a directory and no deletion of a record is
issued, and directories and tables are exactly as before the call.  When the
stop step succeeds, the working directory is removed next: if that removal
fails, `Remove` returns its wrapped error with directories and record left as
the stop left them and no deletion issued; if it succeeds, nothing at or below
the working directory remains and only then is the record deleted: a failing
deletion is returned wrapped with the record still there, and a successful one
makes `Remove` return nil with the record (and its deployments) gone. -/
theorem Remove_stops_first (s : ProjectService) (id : UUID) (w w1 : World) (p : Project)
    (hget : s.Get id w = (Except.ok p, w1)) :
    w.project id = some p ∧
    (∀ err w2, s.Stop id w1 = (some err, w2) →
      s.Remove id w = (some (GoError.wrap "failed to stop project before removal: " err), w2) ∧
      w2.dirs = w.dirs ∧ w2.projects = w.projects ∧ w2.deployments = w.deployments ∧
      ∃ evs, w2.log = w.log ++ evs ∧ ∀ e ∈ evs, e.isRemoval = false) ∧
    (∀ w2, s.Stop id w1 = (none, w2) →
      ∃ evs, w2.log = w.log ++ evs ∧ (∀ e ∈ evs, e.isRemoval = false) ∧ w2.dirs = w.dirs ∧
        (∀ e, s.fault w2 (Event.RemoveAll p.WorkingDir) = some e →
          s.Remove id w
            = (some (GoError.wrap "failed to remove project directory: " e),
                { w2 with log := w2.log ++ [Event.RemoveAll p.WorkingDir] })) ∧
        (s.fault w2 (Event.RemoveAll p.WorkingDir) = none →
          (∀ e,
            s.fault
                { w2 with
                  dirs := w2.dirs.filter
                    (fun d => !(decide (d = p.WorkingDir) || s.within p.WorkingDir d))
                  log := w2.log ++ [Event.RemoveAll p.WorkingDir] }
                (Event.ProjectDelete id) = some e →
            s.Remove id w
              = (some (GoError.wrap "failed to delete project from database: " e),
                  { w2 with
                    dirs := w2.dirs.filter
                      (fun d => !(decide (d = p.WorkingDir) || s.within p.WorkingDir d))
                    log := w2.log ++
                      [Event.RemoveAll p.WorkingDir, Event.ProjectDelete id] })) ∧
          (s.fault
                { w2 with
                  dirs := w2.dirs.filter
                    (fun d => !(decide (d = p.WorkingDir) || s.within p.WorkingDir d))
                  log := w2.log ++ [Event.RemoveAll p.WorkingDir] }
                (Event.ProjectDelete id) = none →
            s.Remove id w
              = (none,
                  { projects := w2.projects.filter (fun q => !decide (q.ID = id))
                    deployments := w2.deployments.filter (fun d => !decide (d.ProjectID = id))
                    dirs := w2.dirs.filter
                      (fun d => !(decide (d = p.WorkingDir) || s.within p.WorkingDir d))
                    log := w2.log ++
                      [Event.RemoveAll p.WorkingDir, Event.ProjectDelete id] }) ∧
            (s.Remove id w).2.project id = none ∧
            pathExists s (s.Remove id w).2 p.WorkingDir = false))) := by
  obtain ⟨rfl, hp⟩ := Get_eq hget
  have h0 : Grows (fun e => e.isRemoval = false) w (w.emit (Event.FindByID id)) :=
    (Grows.refl _ _).emit _ rfl
  refine ⟨(hp p rfl).1, ?_, ?_⟩
  · intro err w2 hstop
    obtain ⟨hdi, hde, hgr, hpr⟩ := Stop_eq hstop
    refine ⟨?_, hdi, hpr (by simp), hde, h0.trans hgr⟩
    simp [ProjectService.Remove, hget, hstop]
  · intro w2 hstop
    obtain ⟨hdi, hde, hgr, -⟩ := Stop_eq hstop
    obtain ⟨evs, hlog, hev⟩ := h0.trans hgr
    refine ⟨evs, hlog, hev, hdi, ?_, ?_⟩
    · intro e hf
      simp only [ProjectService.Remove, hget, hstop, osRemoveAll, hf]
      rfl
    · intro hf
      have hR : osRemoveAll s p.WorkingDir w2
          = (none,
              { w2 with
                dirs := w2.dirs.filter
                  (fun d => !(decide (d = p.WorkingDir) || s.within p.WorkingDir d))
                log := w2.log ++ [Event.RemoveAll p.WorkingDir] }) := by
        simp only [osRemoveAll, hf]
        rfl
      constructor
      · intro e hfd
        simp only [ProjectService.Remove, hget, hstop, hR, projectRepository.Delete, hfd]
        simp [World.emit]
      · intro hfd
        have hrun : s.Remove id w
            = (none,
                { projects := w2.projects.filter (fun q => !decide (q.ID = id))
                  deployments := w2.deployments.filter (fun d => !decide (d.ProjectID = id))
                  dirs := w2.dirs.filter
                    (fun d => !(decide (d = p.WorkingDir) || s.within p.WorkingDir d))
                  log := w2.log ++
                    [Event.RemoveAll p.WorkingDir, Event.ProjectDelete id] }) := by
          simp only [ProjectService.Remove, hget, hstop, hR, projectRepository.Delete, hfd]
          simp [World.emit]
        refine ⟨hrun, ?_, ?_⟩
        · rw [hrun]
          exact find_filter_none _ _
        · rw [hrun]
          exact any_filter_not _ _

/-- A removal whose stop step fails, and one that runs to the end: the record
and the checkout of the sample project are gone. -/
theorem Remove_stops_first_witness :
    (composeFailService.Remove sampleID sampleWorld
        = (some (GoError.wrap "failed to stop project before removal: "
            (GoError.wrap "failed to stop project: " boom)),
            (composeFailService.Stop sampleID (sampleWorld.emit (Event.FindByID sampleID))).2) ∧
      (composeFailService.Stop sampleID (sampleWorld.emit (Event.FindByID sampleID))).2.dirs
        = sampleWorld.dirs ∧
      (composeFailService.Stop sampleID (sampleWorld.emit (Event.FindByID sampleID))).2.projects
        = sampleWorld.projects ∧
      (composeFailService.Stop sampleID
        (sampleWorld.emit (Event.FindByID sampleID))).2.deployments = sampleWorld.deployments ∧
      ∃ evs, (composeFailService.Stop sampleID
          (sampleWorld.emit (Event.FindByID sampleID))).2.log = sampleWorld.log ++ evs ∧
        ∀ e ∈ evs, e.isRemoval = false) ∧
    sampleWorld.project sampleID = some sampleProject ∧
    sampleService.Remove sampleID sampleWorld
      = (none,
          { projects := [], deployments := [], dirs := [],
            log := [Event.FindByID sampleID, Event.FindByID sampleID, Event.Down sampleProject,
              Event.ProjectUpdate { sampleProject with Status := ProjectStatusStopped },
              Event.RemoveAll "/ws/p1", Event.ProjectDelete sampleID] }) ∧
    (sampleService.Remove sampleID sampleWorld).2.project sampleID = none ∧
    pathExists sampleService (sampleService.Remove sampleID sampleWorld).2 "/ws/p1" = false := by
  have hfail := (Remove_stops_first composeFailService sampleID sampleWorld
    (sampleWorld.emit (Event.FindByID sampleID)) sampleProject rfl).2.1
    (GoError.wrap "failed to stop project: " boom) _ rfl
  have hrec := (Remove_stops_first sampleService sampleID sampleWorld
    (sampleWorld.emit (Event.FindByID sampleID)) sampleProject rfl).1
  obtain ⟨evs, -, -, -, -, hok⟩ := (Remove_stops_first sampleService sampleID sampleWorld
    (sampleWorld.emit (Event.FindByID sampleID)) sampleProject rfl).2.2
    (sampleService.Stop sampleID (sampleWorld.emit (Event.FindByID sampleID))).2 rfl
  obtain ⟨hrun, hgone, hdir⟩ := (hok rfl).2 rfl
  exact ⟨hfail, hrec, hrun, hgone, hdir⟩

/-- C4: when `Start` returns nil the persisted status of the project is
Running, and when `Stop` returns nil it is Stopped; when the project lookup
fails, or the compose executor fails, `Start` and `Stop` return the wrapped
error, the project table is what it was before the call, and the calls issued
are the lookup alone, or the lookup and the compose command: no repository
update is issued and the persisted status keeps its pre-call value. -/
theorem Start_Stop_status (s : ProjectService) (id : UUID) (w : World) :
    (∀ w', s.Start id w = (none, w') → w'.status id = some ProjectStatusRunning) ∧
    (∀ w', s.Stop id w = (none, w') → w'.status id = some ProjectStatusStopped) ∧
    (∀ err, (s.Get id w).1 = Except.error err →
      ∃ w', s.Start id w = (some (GoError.wrap "project not found: " err), w') ∧
        s.Stop id w = (some (GoError.wrap "project not found: " err), w') ∧
        w'.projects = w.projects ∧ w'.status id = w.status id ∧
        w'.log = w.log ++ [Event.FindByID id]) ∧
    (∀ p out err, (s.Get id w).1 = Except.ok p →
      s.compose.Up (w.emit (Event.FindByID id)) p = (out, some err) →
      ∃ w', s.Start id w = (some (GoError.wrap "failed to start project: " err), w') ∧
        w'.projects = w.projects ∧ w'.status id = w.status id ∧
        w'.log = w.log ++ [Event.FindByID id, Event.Up p]) ∧
    (∀ p out err, (s.Get id w).1 = Except.ok p →
      s.compose.Down (w.emit (Event.FindByID id)) p = (out, some err) →
      ∃ w', s.Stop id w = (some (GoError.wrap "failed to stop project: " err), w') ∧
        w'.projects = w.projects ∧ w'.status id = w.status id ∧
        w'.log = w.log ++ [Event.FindByID id, Event.Down p]) := by
  obtain ⟨hw, hp⟩ := Get_spec s id w
  refine ⟨?_, ?_, ?_, ?_, ?_⟩
  · intro w' h
    unfold ProjectService.Start at h
    rcases hg : s.Get id w with ⟨r, w1⟩
    rw [hg] at h hw hp
    cases r with
    | error e => simp at h
    | ok p =>
      obtain ⟨hfound, hid⟩ := hp p rfl
      simp only [NewComposeProject, ComposeProject.Up, ProjectService.Update,
        projectRepository.Update] at h
      rcases hu : s.compose.Up w1 p with ⟨out, e⟩
      rw [hu] at h
      cases e with
      | some e => simp at h
      | none =>
        simp only at h
        split at h
        · simp at h
        · simp only [Prod.mk.injEq, true_and] at h
          subst h
          simp only at hw
          subst hw
          simp only [World.status, World.project, World.emit_projects]
          have hsome : (w.projects.find? (fun p => decide (p.ID = id))).isSome := by
            simp [World.project] at hfound
            simp [hfound]
          have := find_replace w.projects { p with Status := ProjectStatusRunning } id hid hsome
          simp only at this
          rw [this]
          rfl
  · intro w' h
    unfold ProjectService.Stop at h
    rcases hg : s.Get id w with ⟨r, w1⟩
    rw [hg] at h hw hp
    cases r with
    | error e => simp at h
    | ok p =>
      obtain ⟨hfound, hid⟩ := hp p rfl
      simp only [NewComposeProject, ComposeProject.Down, ProjectService.Update,
        projectRepository.Update] at h
      rcases hu : s.compose.Down w1 p with ⟨out, e⟩
      rw [hu] at h
      cases e with
      | some e => simp at h
      | none =>
        simp only at h
        split at h
        · simp at h
        · simp only [Prod.mk.injEq, true_and] at h
          subst h
          simp only at hw
          subst hw
          simp only [World.status, World.project, World.emit_projects]
          have hsome : (w.projects.find? (fun p => decide (p.ID = id))).isSome := by
            simp [World.project] at hfound
            simp [hfound]
          have := find_replace w.projects { p with Status := ProjectStatusStopped } id hid hsome
          simp only at this
          rw [this]
          rfl
  · intro err h
    refine ⟨w.emit (Event.FindByID id), ?_, ?_, rfl, rfl, rfl⟩
    · unfold ProjectService.Start
      rcases hg : s.Get id w with ⟨r, w1⟩
      rw [hg] at h hw
      simp only at h hw
      subst h hw
      rfl
    · unfold ProjectService.Stop
      rcases hg : s.Get id w with ⟨r, w1⟩
      rw [hg] at h hw
      simp only at h hw
      subst h hw
      rfl
  · intro p out err h hu
    refine ⟨(w.emit (Event.FindByID id)).emit (Event.Up p), ?_, rfl, rfl, by simp⟩
    unfold ProjectService.Start
    rcases hg : s.Get id w with ⟨r, w1⟩
    rw [hg] at h hw
    simp only at h hw
    subst h hw
    simp [NewComposeProject, ComposeProject.Up, hu]
  · intro p out err h hu
    refine ⟨(w.emit (Event.FindByID id)).emit (Event.Down p), ?_, rfl, rfl, by simp⟩
    unfold ProjectService.Stop
    rcases hg : s.Get id w with ⟨r, w1⟩
    rw [hg] at h hw
    simp only at h hw
    subst h hw
    simp [NewComposeProject, ComposeProject.Down, hu]

/-- Start and stop on the sample project: success, unknown id, failing compose. -/
theorem Start_Stop_status_witness :
    (sampleService.Start sampleID sampleWorld).1 = none ∧
      (sampleService.Start sampleID sampleWorld).2.status sampleID = some ProjectStatusRunning ∧
      (sampleService.Stop sampleID sampleWorld).1 = none ∧
      (sampleService.Stop sampleID sampleWorld).2.status sampleID = some ProjectStatusStopped ∧
      (∃ w', sampleService.Start sampleID emptyWorld
            = (some (GoError.wrap "project not found: " ErrRecordNotFound), w') ∧
          sampleService.Stop sampleID emptyWorld
            = (some (GoError.wrap "project not found: " ErrRecordNotFound), w') ∧
          w'.projects = emptyWorld.projects ∧ w'.status sampleID = emptyWorld.status sampleID ∧
          w'.log = emptyWorld.log ++ [Event.FindByID sampleID]) ∧
      (∃ w', composeFailService.Start sampleID sampleWorld
            = (some (GoError.wrap "failed to start project: " boom), w') ∧
          w'.projects = sampleWorld.projects ∧
          w'.status sampleID = sampleWorld.status sampleID ∧
          w'.log = sampleWorld.log ++ [Event.FindByID sampleID, Event.Up sampleProject]) ∧
      (∃ w', composeFailService.Stop sampleID sampleWorld
            = (some (GoError.wrap "failed to stop project: " boom), w') ∧
          w'.projects = sampleWorld.projects ∧
          w'.status sampleID = sampleWorld.status sampleID ∧
          w'.log = sampleWorld.log ++ [Event.FindByID sampleID, Event.Down sampleProject]) :=
  ⟨by decide,
    (Start_Stop_status sampleService sampleID sampleWorld).1 _ rfl,
    by decide,
    (Start_Stop_status sampleService sampleID sampleWorld).2.1 _ rfl,
    (Start_Stop_status sampleService sampleID emptyWorld).2.2.1 ErrRecordNotFound rfl,
    (Start_Stop_status composeFailService sampleID sampleWorld).2.2.2.1 sampleProject "" boom
      rfl rfl,
    (Start_Stop_status composeFailService sampleID sampleWorld).2.2.2.2 sampleProject "" boom
      rfl rfl⟩

/-- C2 (as stated, refuted): the one-element sequence holding the empty path is
serialized to the empty string, which parses to the empty sequence. -/
theorem parseFiles_serializeFiles_singleton_empty :
    (∀ x ∈ [""], nul ∉ x.data) ∧ parseFiles (serializeFiles [""]) = [] ∧
      parseFiles (serializeFiles [""]) ≠ [""] := by
  refine ⟨?_, ?_, ?_⟩
  · simp
  · decide
  · decide

/-- C2 (amended): for every sequence of NUL-free path strings other than the
one-element sequence holding the empty string, parsing the serialized sequence
gives the sequence back; the empty sequence is included. -/
theorem parseFiles_serializeFiles (xs : List String)
    (hnul : ∀ x ∈ xs, nul ∉ x.data) (hne : xs ≠ [""]) :
    parseFiles (serializeFiles xs) = xs := by
  unfold parseFiles serializeFiles
  by_cases hempty : joinNul (xs.map String.data) = []
  · rcases joinNul_eq_nil _ hempty with h | h
    · have hxs : xs = [] := by simpa using h
      subst hxs
      simp [joinNul]
    · exfalso
      apply hne
      cases xs with
      | nil => simp at h
      | cons x t =>
        cases t with
        | nil =>
          have hx : x.data = [] := by simpa using h
          have hx2 : x = "" := String.ext hx
          simp [hx2]
        | cons y t => simp at h
  · have hs : (String.mk (joinNul (xs.map String.data)) = "") = False := by
      apply eq_false
      intro h
      apply hempty
      have := congrArg String.data h
      simpa using this
    have hxs : xs.map String.data ≠ [] := by
      intro h
      apply hempty
      simp [h, joinNul]
    have hmem : ∀ x ∈ xs.map String.data, nul ∉ x := by
      intro x hx
      obtain ⟨y, hy, rfl⟩ := List.mem_map.1 hx
      exact hnul y hy
    simp only [hs, if_false]
    rw [splitNul_joinNul _ hxs hmem]
    simp [List.map_map, Function.comp_def]

/-- The round trip on a three-path sequence with an empty middle path, and on the empty sequence. -/
theorem parseFiles_serializeFiles_witness :
    (∀ x ∈ ["compose.yaml", "", "dev/compose.yaml"], nul ∉ x.data) ∧
    ["compose.yaml", "", "dev/compose.yaml"] ≠ [""] ∧
    parseFiles (serializeFiles ["compose.yaml", "", "dev/compose.yaml"])
      = ["compose.yaml", "", "dev/compose.yaml"] ∧
    parseFiles (serializeFiles []) = [] :=
  ⟨by decide, by decide,
    parseFiles_serializeFiles ["compose.yaml", "", "dev/compose.yaml"] (by decide) (by decide),
    parseFiles_serializeFiles [] (by decide) (by decide)⟩

/-- C3: `ParseProjectStatus` reports no error exactly on the four canonical
encodings; every other string, such as "bogus", the empty string or "Running",
yields an error. -/
theorem ParseProjectStatus_error_iff (s : String) :
    ((ParseProjectStatus s).2 = none ↔
        (s = "running" ∨ s = "stopped" ∨ s = "error" ∨ s = "unknown")) ∧
      (ParseProjectStatus "bogus").2 ≠ none ∧
      (ParseProjectStatus "").2 ≠ none ∧
      (ParseProjectStatus "Running").2 ≠ none ∧
      (ParseProjectStatus "running") = (ProjectStatusRunning, none) ∧
      (ParseProjectStatus "stopped") = (ProjectStatusStopped, none) ∧
      (ParseProjectStatus "error") = (ProjectStatusError, none) ∧
      (ParseProjectStatus "unknown") = (ProjectStatusUnknown, none) := by
  refine ⟨?_, by decide, by decide, by decide, by decide, by decide, by decide, by decide⟩
  unfold ParseProjectStatus
  by_cases h1 : s = "running"
  · simp [h1]
  · by_cases h2 : s = "stopped"
    · simp [h2]
    · by_cases h3 : s = "error"
      · simp [h3]
      · by_cases h4 : s = "unknown"
        · simp [h4]
        · simp [h1, h2, h3, h4]


theorem Create_eq {s : ProjectService} {p : Project} {w w1 : World}
    {r : Except GoError Project} (h : projectRepository.Create s p w = (r, w1)) :
    w1.log = w.log ++ [Event.ProjectCreate p] ∧ w1.dirs = w.dirs ∧
      w1.deployments = w.deployments ∧
      (∀ e, r = Except.error e → w1.projects = w.projects) ∧
      (∀ q, r = Except.ok q → q = p ∧ w1.projects = w.projects ++ [p]) := by
  unfold projectRepository.Create at h
  cases hf : s.fault w (Event.ProjectCreate p) with
  | some err =>
    simp only [hf, Prod.mk.injEq] at h
    obtain ⟨rfl, rfl⟩ := h
    simp
  | none =>
    simp only [hf] at h
    split at h
    · simp only [Prod.mk.injEq] at h
      obtain ⟨rfl, rfl⟩ := h
      simp
    · simp only [Prod.mk.injEq] at h
      obtain ⟨rfl, rfl⟩ := h
      simp

theorem osStat_tables (s : ProjectService) (path : String) (w : World) :
    (osStat s path w).2.projects = w.projects ∧
      (osStat s path w).2.deployments = w.deployments := by
  unfold osStat
  cases s.fault w (Event.Stat path) with
  | some err => exact ⟨rfl, rfl⟩
  | none =>
    simp only
    split <;> exact ⟨rfl, rfl⟩

theorem osMkdirAll_tables (s : ProjectService) (path : String) (w : World) :
    (osMkdirAll s path w).2.projects = w.projects ∧
      (osMkdirAll s path w).2.deployments = w.deployments := by
  unfold osMkdirAll
  cases s.fault w (Event.MkdirAll path) <;> exact ⟨rfl, rfl⟩

theorem osRename_tables (s : ProjectService) (oldpath newpath : String) (w : World) :
    (osRename s oldpath newpath w).2.projects = w.projects ∧
      (osRename s oldpath newpath w).2.deployments = w.deployments := by
  unfold osRename
  cases s.fault w (Event.Rename oldpath newpath) with
  | some err => exact ⟨rfl, rfl⟩
  | none =>
    simp only
    split <;> exact ⟨rfl, rfl⟩

theorem osRemoveAll_tables (s : ProjectService) (path : String) (w : World) :
    (osRemoveAll s path w).2.projects = w.projects ∧
      (osRemoveAll s path w).2.deployments = w.deployments := by
  unfold osRemoveAll
  cases s.fault w (Event.RemoveAll path) <;> exact ⟨rfl, rfl⟩

theorem gitClone_tables (s : ProjectService) (gitURL dir : String) (w : World) :
    (gitClone s gitURL dir w).2.projects = w.projects ∧
      (gitClone s gitURL dir w).2.deployments = w.deployments := by
  unfold gitClone
  cases s.gitService.Clone w gitURL dir <;> exact ⟨rfl, rfl⟩

theorem setup_tables (s : ProjectService) (project : Project) (gitDir temp : String)
    (w : World) :
    (ProjectService.CreateFromTempClone.setup s project gitDir temp w).2.projects = w.projects ∧
      (ProjectService.CreateFromTempClone.setup s project gitDir temp w).2.deployments
        = w.deployments := by
  unfold ProjectService.CreateFromTempClone.setup
  split
  · rcases hS : osStat s temp w with ⟨sr, wa⟩
    have hS2 := osStat_tables s temp w
    rw [hS] at hS2
    simp only at hS2 ⊢
    split
    · exact hS2
    · rcases hM : osMkdirAll s (s.filepathDir gitDir) wa with ⟨mr, wb⟩
      have hM2 := osMkdirAll_tables s (s.filepathDir gitDir) wa
      rw [hM] at hM2
      simp only at hM2
      cases mr with
      | some err => exact ⟨hM2.1.trans hS2.1, hM2.2.trans hS2.2⟩
      | none =>
        simp only
        rcases hR : osRename s temp gitDir wb with ⟨rr, wc⟩
        have hR2 := osRename_tables s temp gitDir wb
        rw [hR] at hR2
        simp only at hR2
        cases rr with
        | some err =>
          have hX := osRemoveAll_tables s temp wc
          exact ⟨hX.1.trans (hR2.1.trans (hM2.1.trans hS2.1)),
            hX.2.trans (hR2.2.trans (hM2.2.trans hS2.2))⟩
        | none => exact ⟨hR2.1.trans (hM2.1.trans hS2.1), hR2.2.trans (hM2.2.trans hS2.2)⟩
  · rcases hC : gitClone s project.GitURL gitDir w with ⟨cr, wa⟩
    have hC2 := gitClone_tables s project.GitURL gitDir w
    rw [hC] at hC2
    cases cr <;> exact hC2

/-- C9 (as stated, refuted): the clone succeeded, the repository's create and
the best-effort cleanup both failed; the repository's error is returned and no
record exists, but the checkout below the working directory is still there. -/
theorem Create_cleanup_failure_keeps_directory :
    createCleanupFailService.GitDir { newProject with WorkingDir := "/ws/p2" }
      = ("/ws/p2/git", none) ∧
    (ProjectService.CreateFromTempClone.setup createCleanupFailService
        { newProject with WorkingDir := "/ws/p2" } "/ws/p2/git" "" emptyWorld).1 = none ∧
    (createCleanupFailService.Create newProject emptyWorld).1 = Except.error boom ∧
    (createCleanupFailService.Create newProject emptyWorld).2.projects = [] ∧
    (createCleanupFailService.Create newProject emptyWorld).2.dirs = ["/ws/p2/git"] ∧
    pathExists createCleanupFailService
      (createCleanupFailService.Create newProject emptyWorld).2 "/ws/p2" = true := by
  refine ⟨rfl, rfl, rfl, rfl, rfl, rfl⟩

/-- C9 (amended): when the filesystem setup of `Create` / `CreateFromTempClone`
succeeded and the project repository's create fails, the call returns the
repository's error whether or not the cleanup fails, the project table is what
it was before the call, the last call issued is the removal of the working
directory `<workspaceRoot>/<id>`, and unless that removal itself fails nothing
at or below the working directory remains. -/
theorem CreateFromTempClone_persist_failure (s : ProjectService) (project : Project)
    (temp gitDir : String) (w w1 w3 : World) (err : GoError)
    (hgd : s.GitDir
        { project with WorkingDir := s.filepathJoin s.config.WorkspaceDir project.ID.String }
      = (gitDir, none))
    (hsetup : ProjectService.CreateFromTempClone.setup s
        { project with WorkingDir := s.filepathJoin s.config.WorkspaceDir project.ID.String }
        gitDir temp w = (none, w1))
    (hcreate : projectRepository.Create s
        { project with
          WorkingDir := s.filepathJoin s.config.WorkspaceDir project.ID.String
          LastCommit := some (s.gitService.GetLatestCommit w1 gitDir).1 }
        (w1.emit (Event.GetLatestCommit gitDir)) = (Except.error err, w3)) :
    (s.CreateFromTempClone project temp w).1 = Except.error err ∧
    (s.CreateFromTempClone project temp w).2.projects = w.projects ∧
    (s.CreateFromTempClone project temp w).2.log
      = w3.log ++ [Event.RemoveAll (s.filepathJoin s.config.WorkspaceDir project.ID.String)] ∧
    (s.fault w3 (Event.RemoveAll (s.filepathJoin s.config.WorkspaceDir project.ID.String)) = none →
      pathExists s (s.CreateFromTempClone project temp w).2
        (s.filepathJoin s.config.WorkspaceDir project.ID.String) = false) := by
  obtain ⟨-, -, -, hpr3, -⟩ := Create_eq hcreate
  have hpr3 := hpr3 err rfl
  have hset := setup_tables s
    { project with WorkingDir := s.filepathJoin s.config.WorkspaceDir project.ID.String }
    gitDir temp w
  rw [hsetup] at hset
  simp only at hset
  have hrun : s.CreateFromTempClone project temp w
      = (Except.error err,
          (osRemoveAll s (s.filepathJoin s.config.WorkspaceDir project.ID.String) w3).2) := by
    simp only [ProjectService.CreateFromTempClone, hgd, hsetup, gitGetLatestCommit, hcreate]
  rw [hrun]
  rcases hR : osRemoveAll s (s.filepathJoin s.config.WorkspaceDir project.ID.String) w3
    with ⟨r, w4⟩
  obtain ⟨hlog4, hpr4, -, hf4, hok4, -⟩ := RemoveAll_eq hR
  refine ⟨rfl, ?_, hlog4, ?_⟩
  · simp only
    rw [hpr4, hpr3]
    exact hset.1
  · intro hnofault
    simp only [pathExists]
    rw [hok4 (hf4.trans hnofault)]
    exact any_filter_not _ _

/-- A creation by clone whose repository create fails and whose cleanup succeeds. -/
theorem CreateFromTempClone_persist_failure_witness :
    createFailService.GitDir { newProject with WorkingDir := "/ws/p2" } = ("/ws/p2/git", none) ∧
    (ProjectService.CreateFromTempClone.setup createFailService
        { newProject with WorkingDir := "/ws/p2" } "/ws/p2/git" "" emptyWorld).1 = none ∧
    (createFailService.CreateFromTempClone newProject "" emptyWorld).1 = Except.error boom ∧
    (createFailService.CreateFromTempClone newProject "" emptyWorld).2.projects
      = emptyWorld.projects ∧
    (createFailService.CreateFromTempClone newProject "" emptyWorld).2.log
      = [Event.Clone "https://example.org/api.git" "/ws/p2/git",
          Event.GetLatestCommit "/ws/p2/git",
          Event.ProjectCreate
            { newProject with WorkingDir := "/ws/p2", LastCommit := some "c0ffee" }]
        ++ [Event.RemoveAll "/ws/p2"] ∧
    pathExists createFailService
      (createFailService.CreateFromTempClone newProject "" emptyWorld).2 "/ws/p2" = false := by
  have h := CreateFromTempClone_persist_failure createFailService newProject "" "/ws/p2/git"
    emptyWorld
    { projects := [], deployments := [], dirs := ["/ws/p2/git"],
      log := [Event.Clone "https://example.org/api.git" "/ws/p2/git"] }
    { projects := [], deployments := [], dirs := ["/ws/p2/git"],
      log := [Event.Clone "https://example.org/api.git" "/ws/p2/git",
        Event.GetLatestCommit "/ws/p2/git",
        Event.ProjectCreate
          { newProject with WorkingDir := "/ws/p2", LastCommit := some "c0ffee" }] }
    boom rfl rfl rfl
  exact ⟨rfl, rfl, h.1, h.2.1, h.2.2.1, h.2.2.2 rfl⟩

/-- Whenever the filesystem setup of `CreateFromTempClone` succeeded, the
project handed to the repository carries, as `LastCommit`, a pointer to the
string that `GetLatestCommit` returned, whether or not it also returned an
error. -/
theorem CreateFromTempClone_hands_over_commit (s : ProjectService) (project : Project)
    (temp gitDir : String) (w w1 : World)
    (hgd : s.GitDir
        { project with WorkingDir := s.filepathJoin s.config.WorkspaceDir project.ID.String }
      = (gitDir, none))
    (hsetup : ProjectService.CreateFromTempClone.setup s
        { project with WorkingDir := s.filepathJoin s.config.WorkspaceDir project.ID.String }
        gitDir temp w = (none, w1)) :
    (w1.log ++ [Event.GetLatestCommit gitDir,
        Event.ProjectCreate
          { project with
            WorkingDir := s.filepathJoin s.config.WorkspaceDir project.ID.String
            LastCommit := some (s.gitService.GetLatestCommit w1 gitDir).1 }])
      <+: (s.CreateFromTempClone project temp w).2.log := by
  simp only [ProjectService.CreateFromTempClone, hgd, hsetup, gitGetLatestCommit]
  rcases hC : projectRepository.Create s _ _ with ⟨r, w3⟩
  obtain ⟨hlog3, -⟩ := Create_eq hC
  cases r with
  | error err =>
    simp only
    rcases hR : osRemoveAll s _ w3 with ⟨rr, w4⟩
    obtain ⟨hlog4, -⟩ := RemoveAll_eq hR
    refine ⟨[Event.RemoveAll (s.filepathJoin s.config.WorkspaceDir project.ID.String)], ?_⟩
    simp [hlog4, hlog3]
  | ok q =>
    refine ⟨[], ?_⟩
    simp [hlog3]

/-- C10 (defect in `CreateFromTempClone`): when reading the latest commit fails,
with the empty string and an error as `GitService.GetLatestCommit` returns
them, creation is not aborted, but the project handed to the repository, and
persisted by it, has `LastCommit` set to a pointer to the empty string instead
of being left nil. -/
theorem Create_sets_lastCommit_on_commit_failure :
    commitFailService.gitService.GetLatestCommit
        { projects := [], deployments := [], dirs := ["/ws/p2/git"],
          log := [Event.Clone "https://example.org/api.git" "/ws/p2/git"] } "/ws/p2/git"
      = ("", some boom) ∧
    commitFailService.Create newProject emptyWorld
      = (Except.ok { newProject with WorkingDir := "/ws/p2", LastCommit := some "" },
          { projects := [{ newProject with WorkingDir := "/ws/p2", LastCommit := some "" }],
            deployments := [], dirs := ["/ws/p2/git"],
            log := [Event.Clone "https://example.org/api.git" "/ws/p2/git",
              Event.GetLatestCommit "/ws/p2/git",
              Event.ProjectCreate
                { newProject with WorkingDir := "/ws/p2", LastCommit := some "" }] }) ∧
    ((commitFailService.Create newProject emptyWorld).2.project { text := "p2" }).map
        Project.LastCommit = some (some "") := by
  refine ⟨rfl, rfl, rfl⟩


/-- C12: for each of the four project statuses, parsing the string that
`String` gives returns that status with no error; the four strings are
distinct; on every value outside the four `String` gives "unknown"; hence the
output of `String` always parses without error. -/
theorem ParseProjectStatus_String (s : ProjectStatus) :
    (s ∈ [ProjectStatusRunning, ProjectStatusStopped, ProjectStatusError, ProjectStatusUnknown] →
      ParseProjectStatus s.String = (s, none)) ∧
    ([ProjectStatusRunning, ProjectStatusStopped, ProjectStatusError,
        ProjectStatusUnknown].map ProjectStatus.String).Nodup ∧
    (s ∉ [ProjectStatusRunning, ProjectStatusStopped, ProjectStatusError, ProjectStatusUnknown] →
      s.String = "unknown") ∧
    (s < 0 ∨ 3 < s → s.String = "unknown") ∧
    (ParseProjectStatus s.String).2 = none := by
  have hout : s ∉ [ProjectStatusRunning, ProjectStatusStopped, ProjectStatusError,
      ProjectStatusUnknown] → s.String = "unknown" := by
    intro h
    simp only [List.mem_cons, List.mem_singleton, List.not_mem_nil, or_false, not_or] at h
    obtain ⟨h0, h1, h2, h3⟩ := h
    simp [ProjectStatus.String, h0, h1, h2, h3]
  have hin : s ∈ [ProjectStatusRunning, ProjectStatusStopped, ProjectStatusError,
      ProjectStatusUnknown] → ParseProjectStatus s.String = (s, none) := by
    intro h
    simp only [List.mem_cons, List.mem_singleton, List.not_mem_nil, or_false] at h
    rcases h with rfl | rfl | rfl | rfl <;> decide
  refine ⟨hin, by decide, hout, ?_, ?_⟩
  · intro hrange
    apply hout
    simp only [List.mem_cons, List.mem_singleton, List.not_mem_nil, or_false,
      ProjectStatusRunning, ProjectStatusStopped, ProjectStatusError, ProjectStatusUnknown]
    rintro (h | h | h | h) <;> rw [h] at hrange <;> revert hrange <;> decide
  · by_cases hmem : s ∈ [ProjectStatusRunning, ProjectStatusStopped, ProjectStatusError,
        ProjectStatusUnknown]
    · rw [hin hmem]
    · rw [hout hmem]
      decide

/-- The status value 7 and the status value -1 are outside the four, and
Stopped is inside. -/
theorem ParseProjectStatus_String_witness :
    ParseProjectStatus (ProjectStatus.String ProjectStatusStopped)
      = (ProjectStatusStopped, none) ∧
    ProjectStatus.String 7 = "unknown" ∧
    ProjectStatus.String (-1) = "unknown" ∧
    (ParseProjectStatus (ProjectStatus.String 7)).2 = none :=
  ⟨(ParseProjectStatus_String ProjectStatusStopped).1 (by decide),
    (ParseProjectStatus_String 7).2.2.1 (by decide),
    (ParseProjectStatus_String (-1)).2.2.2.1 (by decide),
    (ParseProjectStatus_String 7).2.2.2.2⟩


theorem cutColon_append (a b : List Char) (ha : ':' ∉ a) :
    cutColon (a ++ ':' :: b) = some (a, b) := by
  induction a with
  | nil => simp [cutColon]
  | cons c cs ih =>
    have hc : c ≠ ':' := fun h => ha (by simp [h])
    have hcs : ':' ∉ cs := fun h => ha (by simp [h])
    simp [cutColon, hc, ih hcs]

theorem splitTwoColons_mk (level text : String) (hl : level ∈ levels) :
    splitTwoColons ("OAR_MSG:" ++ level ++ ":" ++ text) = some ("OAR_MSG", level, text) := by
  have hlevel : ':' ∉ level.data := by
    simp only [levels, List.mem_cons, List.mem_singleton, List.not_mem_nil, or_false] at hl
    rcases hl with rfl | rfl | rfl <;> decide
  have htag : ':' ∉ "OAR_MSG".data := by decide
  have hdata : ("OAR_MSG:" ++ level ++ ":" ++ text).data
      = "OAR_MSG".data ++ ':' :: (level.data ++ ':' :: text.data) := by
    simp [String.data_append]
  unfold splitTwoColons
  rw [hdata, cutColon_append _ _ htag]
  simp only
  rw [cutColon_append _ _ hlevel]

theorem OarMessage.mk (level text : String) (hl : level ∈ levels) :
    OarMessage ("OAR_MSG:" ++ level ++ ":" ++ text) :=
  ⟨level, text, hl, rfl, splitTwoColons_mk level text hl⟩

theorem OarMessage.pull_failed (text : String) :
    OarMessage ("OAR_MSG:error:Failed to pull latest changes: " ++ text) := by
  have h : "OAR_MSG:error:Failed to pull latest changes: " ++ text
      = "OAR_MSG:" ++ "error" ++ ":" ++ ("Failed to pull latest changes: " ++ text) := by
    rw [← String.append_assoc]
    congr 1
  rw [h]
  exact OarMessage.mk "error" _ (by decide)


theorem OwnOrForwarded.of_not_send (s : ProjectService) (e : Event)
    (h : ∀ m, e ≠ Event.Send m) : OwnOrForwarded s e :=
  fun m hm => absurd hm (h m)

theorem OwnOrForwarded.of_message (s : ProjectService) (m : String) (h : OarMessage m) :
    OwnOrForwarded s (Event.Send m) := by
  intro m1 hm
  cases hm
  exact Or.inl h

theorem pullLatestChanges_sends {s : ProjectService} {p : Project} {w w1 : World}
    {r : Option GoError} (h : s.pullLatestChanges p w = (r, w1)) :
    Grows (OwnOrForwarded s) w w1 := by
  unfold ProjectService.pullLatestChanges at h
  split at h
  · simp only [Prod.mk.injEq] at h
    obtain ⟨-, rfl⟩ := h
    exact Grows.refl _ _
  · rename_i gitDir hgd
    simp only [gitPull] at h
    split at h
    · rename_i err wa hpull
      simp only [Prod.mk.injEq] at h hpull
      obtain ⟨-, rfl⟩ := h
      obtain ⟨-, rfl⟩ := hpull
      exact (Grows.refl _ _).emit _ (OwnOrForwarded.of_not_send s _ (by simp))
    · rename_i wa hpull
      simp only [Prod.mk.injEq] at h hpull
      obtain ⟨-, rfl⟩ := h
      obtain ⟨-, rfl⟩ := hpull
      exact (Grows.refl _ _).emit _ (OwnOrForwarded.of_not_send s _ (by simp))

theorem Grows.forward {s : ProjectService} {w w1 : World} (h : Grows (OwnOrForwarded s) w w1)
    (lines : List String) (hl : ∀ m ∈ lines, ComposeLine s m) :
    Grows (OwnOrForwarded s) w (w1.sendAll lines) := by
  refine h.of_log (lines.map Event.Send) rfl ?_
  intro e he
  obtain ⟨m, hm, rfl⟩ := List.mem_map.1 he
  intro m1 h1
  cases h1
  exact Or.inr (hl m hm)

theorem DeployStreaming_body_sends (s : ProjectService) (id : UUID) (pull : Bool) (w : World) :
    Grows (OwnOrForwarded s) w (ProjectService.DeployStreaming.body s id pull w).2 := by
  have h0 : Grows (OwnOrForwarded s) w (w.emit (Event.FindByID id)) :=
    (Grows.refl _ _).emit _ (OwnOrForwarded.of_not_send s _ (by simp))
  unfold ProjectService.DeployStreaming.body
  split
  · rename_i err w1 hg
    obtain ⟨rfl, -⟩ := Get_eq hg
    exact h0
  · rename_i p w1 hg
    obtain ⟨rfl, -⟩ := Get_eq hg
    split
    · exact h0
    · rename_i gitDir hgd
      simp only []
      rcases hpulled : ite (pull = true) _ _ with ⟨r2, w2⟩
      have hg2 : Grows (OwnOrForwarded s) w w2 := by
        cases pull with
        | false =>
          simp only [Bool.false_eq_true, if_false, Prod.mk.injEq] at hpulled
          obtain ⟨-, rfl⟩ := hpulled
          exact h0
        | true =>
          simp only [if_true] at hpulled
          rcases hpl : s.pullLatestChanges p _ with ⟨r, wb⟩
          have h4 := pullLatestChanges_sends hpl
          rw [hpl] at hpulled
          have h5 := (h0.send "OAR_MSG:default:Pulling latest changes from Git..."
            (OwnOrForwarded.of_message s _
              (OarMessage.mk "default" "Pulling latest changes from Git..." (by decide)))).trans h4
          cases r with
          | some err =>
            simp only [Prod.mk.injEq] at hpulled
            obtain ⟨-, rfl⟩ := hpulled
            exact h5.send _ (OwnOrForwarded.of_message s _ (OarMessage.pull_failed err.Error))
          | none =>
            simp only [Prod.mk.injEq] at hpulled
            obtain ⟨-, rfl⟩ := hpulled
            exact h5.send _ (OwnOrForwarded.of_message s _
              (OarMessage.mk "success" "Git pull completed successfully" (by decide)))
      cases r2 with
      | some err => exact hg2
      | none =>
        simp only [gitGetLatestCommit]
        have hg3 := hg2.emit (Event.GetLatestCommit gitDir)
          (OwnOrForwarded.of_not_send s _ (by simp))
        split
        · rename_i c err w3 hc
          simp only [Prod.mk.injEq] at hc
          obtain ⟨-, rfl⟩ := hc
          exact hg3
        · rename_i hash w3 hc
          simp only [Prod.mk.injEq] at hc
          obtain ⟨hc, rfl⟩ := hc
          simp only [NewComposeProject, ComposeProject.UpStreaming]
          have hg5 := (((hg3.send "OAR_MSG:default:Starting Docker Compose deployment..."
            (OwnOrForwarded.of_message s _
              (OarMessage.mk "default" "Starting Docker Compose deployment..." (by decide)))).emit
            (Event.UpStreaming p) (OwnOrForwarded.of_not_send s _ (by simp))).forward
              (s.compose.UpStreaming ((w2.emit (Event.GetLatestCommit gitDir)).send
                "OAR_MSG:default:Starting Docker Compose deployment...") p).1
              (fun m hm => ⟨_, _, Or.inl hm⟩))
          split
          · rename_i err w5 hu
            simp only [Prod.mk.injEq] at hu
            obtain ⟨-, rfl⟩ := hu
            exact hg5
          · rename_i w5 hu
            simp only [Prod.mk.injEq] at hu
            obtain ⟨-, rfl⟩ := hu
            have hg6 := hg5.send
              "OAR_MSG:success:Docker Compose deployment completed successfully"
              (OwnOrForwarded.of_message s _
                (OarMessage.mk "success" "Docker Compose deployment completed successfully"
                  (by decide)))
            rcases hD : deploymentRepository.Create s _ _ with ⟨rD, w7⟩
            obtain ⟨hlog7, -⟩ := DeploymentCreate_eq hD
            have hg7 := hg6.of_log _ hlog7 (by
              intro e he
              simp only [List.mem_singleton] at he
              subst he
              exact OwnOrForwarded.of_not_send s _ (by simp))
            cases rD with
            | some err => exact hg7
            | none =>
              simp only []
              rcases hU : projectRepository.Update s _ _ with ⟨rU, w8⟩
              obtain ⟨hlog8, -⟩ := Update_eq hU
              have hg8 := hg7.of_log _ hlog8 (by
                intro e he
                simp only [List.mem_singleton] at he
                subst he
                exact OwnOrForwarded.of_not_send s _ (by simp))
              cases rU <;> exact hg8

theorem StopStreaming_body_sends (s : ProjectService) (id : UUID) (w : World) :
    Grows (OwnOrForwarded s) w (ProjectService.StopStreaming.body s id w).2 := by
  have h0 : Grows (OwnOrForwarded s) w (w.emit (Event.FindByID id)) :=
    (Grows.refl _ _).emit _ (OwnOrForwarded.of_not_send s _ (by simp))
  unfold ProjectService.StopStreaming.body
  split
  · rename_i err w1 hg
    obtain ⟨rfl, -⟩ := Get_eq hg
    exact h0
  · rename_i p w1 hg
    obtain ⟨rfl, -⟩ := Get_eq hg
    simp only [NewComposeProject, ComposeProject.DownStreaming]
    have h1 := (((h0.send "OAR_MSG:default:Starting Docker Compose shutdown..."
      (OwnOrForwarded.of_message s _
        (OarMessage.mk "default" "Starting Docker Compose shutdown..." (by decide)))).emit
      (Event.DownStreaming p) (OwnOrForwarded.of_not_send s _ (by simp))).forward
      (s.compose.DownStreaming ((w.emit (Event.FindByID id)).send
        "OAR_MSG:default:Starting Docker Compose shutdown...") p).1
      (fun m hm => ⟨_, _, Or.inr hm⟩))
    split
    · rename_i err w2 hu
      simp only [Prod.mk.injEq] at hu
      obtain ⟨-, rfl⟩ := hu
      exact h1
    · rename_i w2 hu
      simp only [Prod.mk.injEq] at hu
      obtain ⟨-, rfl⟩ := hu
      simp only [ProjectService.Update]
      rcases hU : projectRepository.Update s _ _ with ⟨r, w3⟩
      obtain ⟨hlog, -⟩ := Update_eq hU
      exact (h1.send "OAR_MSG:success:Docker Compose shutdown completed successfully"
        (OwnOrForwarded.of_message s _
          (OarMessage.mk "success" "Docker Compose shutdown completed successfully"
            (by decide)))).of_log _ hlog (by
          intro e he
          simp only [List.mem_singleton] at he
          subst he
          exact OwnOrForwarded.of_not_send s _ (by simp))


/-- C11: every message that `DeployStreaming` and `StopStreaming` put on the
output channel is either a line forwarded from the compose executor or a
message of the orchestrator, and such a message has the form
`OAR_MSG:LEVEL:TEXT` with LEVEL among default, success, error, its split on the
first two colons being exactly `OAR_MSG`, the level and the text.  This holds
in particular for the pull-failure message, whatever the text of the embedded
error (colons included): it splits into `OAR_MSG`, `error` and the rest. -/
theorem streaming_messages_encoded (s : ProjectService) (id : UUID) (pull : Bool) (w : World) :
    (∃ evs, (s.DeployStreaming id pull w).2.log = w.log ++ evs ∧
      ∀ m, Event.Send m ∈ evs → OarMessage m ∨ ComposeLine s m) ∧
    (∃ evs, (s.StopStreaming id w).2.log = w.log ++ evs ∧
      ∀ m, Event.Send m ∈ evs → OarMessage m ∨ ComposeLine s m) ∧
    (∀ err : GoError,
      splitTwoColons ("OAR_MSG:error:Failed to pull latest changes: " ++ err.Error)
        = some ("OAR_MSG", "error", "Failed to pull latest changes: " ++ err.Error)) := by
  refine ⟨?_, ?_, ?_⟩
  · obtain ⟨evs, hlog, hev⟩ := (DeployStreaming_body_sends s id pull w).emit Event.Close
      (OwnOrForwarded.of_not_send s _ (by simp))
    exact ⟨evs, hlog, fun m hm => hev _ hm m rfl⟩
  · obtain ⟨evs, hlog, hev⟩ := (StopStreaming_body_sends s id w).emit Event.Close
      (OwnOrForwarded.of_not_send s _ (by simp))
    exact ⟨evs, hlog, fun m hm => hev _ hm m rfl⟩
  · intro err
    have h : "OAR_MSG:error:Failed to pull latest changes: " ++ err.Error
        = "OAR_MSG:" ++ "error" ++ ":" ++ ("Failed to pull latest changes: " ++ err.Error) := by
      rw [← String.append_assoc]
      congr 1
    rw [h]
    exact splitTwoColons_mk "error" _ (by decide)

/-- A deployment whose git pull fails, with a silent compose executor: the two
messages on the channel are the orchestrator's, and the failure message, whose
error text holds two more colons, splits into tag, level and text. -/
theorem streaming_messages_encoded_witness :
    (silentPullFailService.DeployStreaming sampleID true sampleWorld).2.log
      = [Event.FindByID sampleID,
          Event.Send "OAR_MSG:default:Pulling latest changes from Git...",
          Event.Pull "/ws/p1/git",
          Event.Send
            "OAR_MSG:error:Failed to pull latest changes: failed to pull changes: boom",
          Event.Close] ∧
    (∀ m, Event.Send m ∈ (silentPullFailService.DeployStreaming sampleID true sampleWorld).2.log →
      OarMessage m) ∧
    splitTwoColons "OAR_MSG:error:Failed to pull latest changes: failed to pull changes: boom"
      = some ("OAR_MSG", "error",
          "Failed to pull latest changes: failed to pull changes: boom") := by
  refine ⟨by decide, ?_, ?_⟩
  · obtain ⟨evs, hlog, hev⟩ :=
      (streaming_messages_encoded silentPullFailService sampleID true sampleWorld).1
    intro m hm
    rw [hlog] at hm
    rcases hev m (by simpa [sampleWorld] using hm) with h | ⟨wc, p, h | h⟩
    · exact h
    · simp [silentPullFailService, silentCompose] at h
    · simp [silentPullFailService, silentCompose] at h
  · exact (streaming_messages_encoded silentPullFailService sampleID true sampleWorld).2.2
      (GoError.wrap "failed to pull changes: " boom)

end Oar
